import Mathlib

/-!
# Folder resource client of go-grafana-api (`folder.go`)

A shallow embedding of the eight folder operations of package `gapi`
(`Folders`, `Folder`, `SearchFolder`, `FolderByUID`, `NewFolderWithUID`,
`NewFolder`, `UpdateFolder`, `DeleteFolder`) together with the parts of the
Go standard library they rely on: `encoding/json` (`Marshal` of a
`map[string]string`, `Unmarshal` into `[]Folder`, `*Folder` and `Folder`),
`fmt.Sprintf` with `%d` and `%s`, `errors.New`, `fmt.Errorf` and
`ioutil.ReadAll`.

Conventions of the embedding:

* The Go strings that `json.Marshal` encodes (`title`, `uid`, `name`) are
  lists of bytes (`Bytes`), valid UTF-8 or not. Strings that are only passed
  on or compared (paths, status texts, response bodies) are texts (`String`).
* `int64` is `Int`; the decoder checks the 64-bit range where Go does.
* A `*Folder` is an `Option Folder` (`none` is the nil pointer).
* The collaborators `Client.newRequest` and `Client.Do` live outside
  `folder.go`; they are fields of the `Client` record, and every operation
  returns the list of calls it made to them next to its Go results.
-/

namespace Gapi

/-! ## JSON texts -/

/-- The double quote character. -/
def dquote : Char := Char.ofNat 34

/-- The backslash character. -/
def bslash : Char := Char.ofNat 92

/-- The replacement character U+FFFD (`unicode.ReplacementChar`). -/
def replacementChar : Char := Char.ofNat 0xFFFD

/-- JSON values as `encoding/json` sees them while decoding: numbers keep
their literal text, objects keep their members in input order (duplicates
included). -/
inductive JSON where
  | null
  | bool (b : Bool)
  | num (lit : List Char)
  | str (s : String)
  | arr (elems : List JSON)
  | obj (members : List (String × JSON))

/-- JSON whitespace (`isSpace` of the scanner). -/
def isSpace (c : Char) : Bool :=
  c = ' ' || c = Char.ofNat 9 || c = Char.ofNat 13 || c = Char.ofNat 10

/-- Drop leading whitespace. -/
def skipSpace : List Char → List Char
  | [] => []
  | c :: cs => if isSpace c then skipSpace cs else c :: cs

/-- Decimal digit test. -/
def isDigit (c : Char) : Bool := decide ('0' ≤ c ∧ c ≤ '9')

/-- Split off the longest run of decimal digits. -/
def takeDigits : List Char → List Char × List Char
  | [] => ([], [])
  | c :: cs =>
    if isDigit c then ((takeDigits cs).1.cons c, (takeDigits cs).2) else ([], c :: cs)

/-- Optional exponent part of a number literal: `e` or `E`, an optional sign,
one or more digits. The input is what follows the fraction. -/
def scanExponent (cs : List Char) : Option (List Char × List Char) :=
  match cs with
  | [] => some ([], [])
  | c :: rest =>
    if c = 'e' ∨ c = 'E' then
      match rest with
      | [] => none
      | s :: rest2 =>
        if s = '+' ∨ s = '-' then
          match takeDigits rest2 with
          | ([], _) => none
          | (ds, rest3) => some (c :: s :: ds, rest3)
        else
          match takeDigits (s :: rest2) with
          | ([], _) => none
          | (ds, rest3) => some (c :: ds, rest3)
    else some ([], c :: rest)

/-- Optional fraction part of a number literal followed by the optional
exponent. -/
def scanFraction (cs : List Char) : Option (List Char × List Char) :=
  match cs with
  | [] => some ([], [])
  | c :: rest =>
    if c = '.' then
      match takeDigits rest with
      | ([], _) => none
      | (ds, rest2) =>
        match scanExponent rest2 with
        | none => none
        | some (ex, rest3) => some (c :: ds ++ ex, rest3)
    else scanExponent (c :: rest)

/-- Integer part of a number literal (after the optional minus sign), then
fraction and exponent: a single `0`, or a nonzero digit followed by digits. -/
def scanUnsigned (cs : List Char) : Option (List Char × List Char) :=
  match cs with
  | [] => none
  | c :: rest =>
    if c = '0' then
      match scanFraction rest with
      | none => none
      | some (tl, rest2) => some (c :: tl, rest2)
    else if isDigit c then
      match scanFraction (takeDigits rest).2 with
      | none => none
      | some (tl, rest2) => some (c :: (takeDigits rest).1 ++ tl, rest2)
    else none

/-- Scan a number literal; returns its text and the remaining input. -/
def scanNumber (cs : List Char) : Option (List Char × List Char) :=
  match cs with
  | [] => none
  | c :: rest =>
    if c = '-' then
      match scanUnsigned rest with
      | none => none
      | some (lit, rest2) => some (c :: lit, rest2)
    else scanUnsigned (c :: rest)

/-- Value of a hexadecimal digit. -/
def hexVal (c : Char) : Option Nat :=
  if '0' ≤ c ∧ c ≤ '9' then some (c.toNat - 48)
  else if 'a' ≤ c ∧ c ≤ 'f' then some (c.toNat - 87)
  else if 'A' ≤ c ∧ c ≤ 'F' then some (c.toNat - 55)
  else none

/-- Read four hexadecimal digits (`getu4` without the leading `\u`). -/
def readHex4 (cs : List Char) : Option (Nat × List Char) :=
  match cs with
  | a :: b :: c :: d :: rest =>
    match hexVal a, hexVal b, hexVal c, hexVal d with
    | some x, some y, some z, some w => some (((x * 16 + y) * 16 + z) * 16 + w, rest)
    | _, _, _, _ => none
  | _ => none

/-- UTF-16 surrogate test (`utf16.IsSurrogate`). -/
def isSurrogate (n : Nat) : Bool := decide (0xD800 ≤ n ∧ n < 0xE000)

/-- The low half that may follow a high surrogate escape: a second `\uXXXX`
escape right behind it (`getu4` on the rest). -/
def readLowSurrogate (cs : List Char) : Option (Nat × List Char) :=
  match cs with
  | b :: u :: rest => if b = bslash ∧ u = 'u' then readHex4 rest else none
  | _ => none

/-- Read the inside of a string literal up to and including the closing
quote, decoding escapes as `unquote` does; `acc` holds the decoded characters
in reverse. Each step consumes input, so fuel equal to the length of the
input always suffices. -/
def readString : Nat → List Char → List Char → Option (List Char × List Char)
  | 0, _, _ => none
  | _ + 1, [], _ => none
  | fuel + 1, c :: rest, acc =>
    if c = dquote then some (acc.reverse, rest)
    else if c = bslash then
      match rest with
      | [] => none
      | e :: rest2 =>
        if e = dquote ∨ e = bslash ∨ e = '/' then readString fuel rest2 (e :: acc)
        else if e = 'b' then readString fuel rest2 (Char.ofNat 8 :: acc)
        else if e = 'f' then readString fuel rest2 (Char.ofNat 12 :: acc)
        else if e = 'n' then readString fuel rest2 (Char.ofNat 10 :: acc)
        else if e = 'r' then readString fuel rest2 (Char.ofNat 13 :: acc)
        else if e = 't' then readString fuel rest2 (Char.ofNat 9 :: acc)
        else if e = 'u' then
          match readHex4 rest2 with
          | none => none
          | some (hi, rest3) =>
            if isSurrogate hi then
              match readLowSurrogate rest3 with
              | some (lo, rest4) =>
                if hi < 0xDC00 ∧ 0xDC00 ≤ lo ∧ lo < 0xE000 then
                  readString fuel rest4
                    (Char.ofNat ((hi - 0xD800) * 1024 + (lo - 0xDC00) + 0x10000) :: acc)
                else readString fuel rest3 (replacementChar :: acc)
              | none => readString fuel rest3 (replacementChar :: acc)
            else readString fuel rest3 (Char.ofNat hi :: acc)
        else none
    else if c.toNat < 0x20 then none
    else readString fuel rest (c :: acc)

/-- Match a keyword (`true`, `false`, `null`) at the head of the input. -/
def expectWord : List Char → List Char → Option (List Char)
  | [], cs => some cs
  | _ :: _, [] => none
  | w :: ws, c :: cs => if w = c then expectWord ws cs else none

/-- The deepest nesting of arrays and objects the scanner of `encoding/json`
accepts (`maxNestingDepth`). -/
def maxNestingDepth : Nat := 10000

mutual
/-- Parse one JSON value, skipping leading whitespace; returns the value and
the remaining input. `depth` counts the arrays and objects that are open
around the value; opening one more when `maxNestingDepth` are open already is
the error "exceeded max depth". -/
def parseValue : Nat → Nat → List Char → Option (JSON × List Char)
  | 0, _, _ => none
  | fuel + 1, depth, cs =>
    match skipSpace cs with
    | [] => none
    | c :: rest =>
      if c = '{' then
        if maxNestingDepth ≤ depth then none
        else
          match skipSpace rest with
          | [] => none
          | d :: rest2 =>
            if d = '}' then some (JSON.obj [], rest2)
            else
              match parseMembers fuel (depth + 1) (d :: rest2) with
              | none => none
              | some (ms, rest3) => some (JSON.obj ms, rest3)
      else if c = '[' then
        if maxNestingDepth ≤ depth then none
        else
          match skipSpace rest with
          | [] => none
          | d :: rest2 =>
            if d = ']' then some (JSON.arr [], rest2)
            else
              match parseElems fuel (depth + 1) (d :: rest2) with
              | none => none
              | some (vs, rest3) => some (JSON.arr vs, rest3)
      else if c = dquote then
        match readString rest.length rest [] with
        | none => none
        | some (s, rest2) => some (JSON.str (String.mk s), rest2)
      else if c = 't' then
        match expectWord ['r', 'u', 'e'] rest with
        | none => none
        | some rest2 => some (JSON.bool true, rest2)
      else if c = 'f' then
        match expectWord ['a', 'l', 's', 'e'] rest with
        | none => none
        | some rest2 => some (JSON.bool false, rest2)
      else if c = 'n' then
        match expectWord ['u', 'l', 'l'] rest with
        | none => none
        | some rest2 => some (JSON.null, rest2)
      else
        match scanNumber (c :: rest) with
        | none => none
        | some (lit, rest2) => some (JSON.num lit, rest2)
/-- Parse the elements of a non-empty array up to and including the closing
bracket; `depth` counts the open arrays and objects, this array included. -/
def parseElems : Nat → Nat → List Char → Option (List JSON × List Char)
  | 0, _, _ => none
  | fuel + 1, depth, cs =>
    match parseValue fuel depth cs with
    | none => none
    | some (v, rest) =>
      match skipSpace rest with
      | [] => none
      | c :: rest2 =>
        if c = ',' then
          match parseElems fuel depth rest2 with
          | none => none
          | some (vs, rest3) => some (v :: vs, rest3)
        else if c = ']' then some ([v], rest2)
        else none
/-- Parse the members of a non-empty object up to and including the closing
brace; `depth` counts the open arrays and objects, this object included. -/
def parseMembers : Nat → Nat → List Char → Option (List (String × JSON) × List Char)
  | 0, _, _ => none
  | fuel + 1, depth, cs =>
    match skipSpace cs with
    | [] => none
    | q :: rest =>
      if q = dquote then
        match readString rest.length rest [] with
        | none => none
        | some (k, rest2) =>
          match skipSpace rest2 with
          | [] => none
          | colon :: rest3 =>
            if colon = ':' then
              match parseValue fuel depth rest3 with
              | none => none
              | some (v, rest4) =>
                match skipSpace rest4 with
                | [] => none
                | c :: rest5 =>
                  if c = ',' then
                    match parseMembers fuel depth rest5 with
                    | none => none
                    | some (ms, rest6) => some ((String.mk k, v) :: ms, rest6)
                  else if c = '}' then some ([(String.mk k, v)], rest5)
                  else none
            else none
      else none
end

/-- Parse a complete JSON text (`checkValid` followed by the decoder walk):
one value, optionally surrounded by whitespace, and nothing else; a text that
nests arrays and objects deeper than `maxNestingDepth` is rejected like any
other invalid text. The fuel bounds the depth of the recursive descent: an
array or object costs two levels and has two brackets, each further element
or member costs one level and has a comma and at least one more character, so
a text of `n` characters never needs more than `n + 1` (theorem
`parseJSON_of_fuel`). -/
def parseJSON (data : String) : Option JSON :=
  match parseValue (data.length + 1) 0 data.data with
  | none => none
  | some (v, rest) => if skipSpace rest = [] then some v else none

/-! ## Errors -/

/-- Go `error` values that occur in this file: strings made by `errors.New`
and `fmt.Errorf`, the two error kinds of `json.Unmarshal`, and whatever the
collaborators (`newRequest`, `Do`, the body reader) report. -/
inductive GoError where
  | text (msg : String)
  | invalidJSON
  | typeMismatch (value : String) (target : String)
  | external (msg : String)
deriving DecidableEq, Repr

/-- The `Error()` method. The texts of the two decoder errors are schematic:
the exact wording of `encoding/json` is not modelled. -/
def GoError.Error : GoError → String
  | GoError.text msg => msg
  | GoError.invalidJSON => "invalid character in JSON input"
  | GoError.typeMismatch value target =>
    "json: cannot unmarshal " ++ value ++ " into Go value of type " ++ target
  | GoError.external msg => msg

/-- The call `errors.New(text)`. -/
def errorsNew (msg : String) : GoError := GoError.text msg

/-- The call `fmt.Errorf("status: %s body: %s", status, data)`. -/
def errorfStatusBody (status : String) (data : String) : GoError :=
  GoError.text ("status: " ++ status ++ " body: " ++ data)

/-! ## The data model -/

/-- The Go struct `Folder` with fields tagged `json:"id"`, `json:"uid"` and
`json:"title"`. -/
structure Folder where
  Id : Int
  Uid : String
  Title : String
deriving DecidableEq, Repr

/-- The zero value `Folder{}`. -/
def Folder.zero : Folder := ⟨0, "", ""⟩

/-! ## `json.Unmarshal` -/

/-- Value of a run of decimal digits, `none` when a character is not a
digit. -/
def digitsValue : List Char → Nat → Option Nat
  | [], acc => some acc
  | c :: cs, acc => if isDigit c then digitsValue cs (acc * 10 + (c.toNat - 48)) else none

/-- The call `strconv.ParseInt(lit, 10, 64)`: an optional sign, one or more
decimal digits, and a value within the `int64` range. -/
def parseInt64 (lit : List Char) : Option Int :=
  match lit with
  | [] => none
  | c :: rest =>
    if c = '-' then
      match rest with
      | [] => none
      | _ :: _ =>
        match digitsValue rest 0 with
        | none => none
        | some n => if n ≤ 2 ^ 63 then some (-(n : Int)) else none
    else if c = '+' then
      match rest with
      | [] => none
      | _ :: _ =>
        match digitsValue rest 0 with
        | none => none
        | some n => if n < 2 ^ 63 then some (n : Int) else none
    else
      match digitsValue (c :: rest) 0 with
      | none => none
      | some n => if n < 2 ^ 63 then some (n : Int) else none

/-- The method `decodeState.saveError`: only the first error is kept. -/
def saveError (saved : Option GoError) (err : Option GoError) : Option GoError :=
  match saved with
  | some e => some e
  | none => err

/-- Store a JSON value in an `int64` field: `null` leaves it alone, an
integer literal in range is stored, anything else is a type error and leaves
the field alone. -/
def storeInt64 (v : JSON) (cur : Int) : Int × Option GoError :=
  match v with
  | JSON.null => (cur, none)
  | JSON.num lit =>
    match parseInt64 lit with
    | some n => (n, none)
    | none => (cur, some (GoError.typeMismatch ("number " ++ String.mk lit) "int64"))
  | JSON.str _ => (cur, some (GoError.typeMismatch "string" "int64"))
  | JSON.bool _ => (cur, some (GoError.typeMismatch "bool" "int64"))
  | JSON.arr _ => (cur, some (GoError.typeMismatch "array" "int64"))
  | JSON.obj _ => (cur, some (GoError.typeMismatch "object" "int64"))

/-- Store a JSON value in a `string` field. -/
def storeString (v : JSON) (cur : String) : String × Option GoError :=
  match v with
  | JSON.null => (cur, none)
  | JSON.str s => (s, none)
  | JSON.num _ => (cur, some (GoError.typeMismatch "number" "string"))
  | JSON.bool _ => (cur, some (GoError.typeMismatch "bool" "string"))
  | JSON.arr _ => (cur, some (GoError.typeMismatch "array" "string"))
  | JSON.obj _ => (cur, some (GoError.typeMismatch "object" "string"))

/-- ASCII upper-casing of one character. -/
def asciiUpper (c : Char) : Char :=
  if 'a' ≤ c ∧ c ≤ 'z' then Char.ofNat (c.toNat - 32) else c

/-- Does an object key select the struct field with the given JSON name? The
decoder prefers an exact match and falls back to a case-insensitive one; the
three field names differ pairwise under case folding and contain no letter
with a non-ASCII fold, so both tests select the same field. -/
def fieldMatches (key : String) (name : String) : Bool :=
  key.data.map asciiUpper = name.data.map asciiUpper

/-- Decode one object member into the struct; unknown keys are skipped. -/
def setField (st : Folder × Option GoError) (kv : String × JSON) : Folder × Option GoError :=
  if fieldMatches kv.1 "id" then
    ({ st.1 with Id := (storeInt64 kv.2 st.1.Id).1 }, saveError st.2 (storeInt64 kv.2 st.1.Id).2)
  else if fieldMatches kv.1 "uid" then
    ({ st.1 with Uid := (storeString kv.2 st.1.Uid).1 },
      saveError st.2 (storeString kv.2 st.1.Uid).2)
  else if fieldMatches kv.1 "title" then
    ({ st.1 with Title := (storeString kv.2 st.1.Title).1 },
      saveError st.2 (storeString kv.2 st.1.Title).2)
  else st

/-- Decode a JSON value into a `Folder` struct that currently holds `cur`:
`null` is a no-op, an object sets the fields its members name (later
duplicates win, a wrongly typed member is skipped after its error is saved),
any other value is a type error that leaves the struct alone. -/
def decodeFolder (v : JSON) (cur : Folder) (saved : Option GoError) : Folder × Option GoError :=
  match v with
  | JSON.null => (cur, saved)
  | JSON.obj members => members.foldl setField (cur, saved)
  | JSON.str _ => (cur, saveError saved (some (GoError.typeMismatch "string" "gapi.Folder")))
  | JSON.num _ => (cur, saveError saved (some (GoError.typeMismatch "number" "gapi.Folder")))
  | JSON.bool _ => (cur, saveError saved (some (GoError.typeMismatch "bool" "gapi.Folder")))
  | JSON.arr _ => (cur, saveError saved (some (GoError.typeMismatch "array" "gapi.Folder")))

/-- Decode the elements of a JSON array into fresh slice elements, in order;
every element starts from the zero `Folder` and the walk goes on after a type
error. -/
def decodeElems : List JSON → Option GoError → List Folder × Option GoError
  | [], saved => ([], saved)
  | e :: es, saved =>
    ((decodeElems es (decodeFolder e Folder.zero saved).2).1.cons
        (decodeFolder e Folder.zero saved).1,
      (decodeElems es (decodeFolder e Folder.zero saved).2).2)

/-- Decode a JSON value into a `[]Folder` that currently holds `cur`, a slice
without spare capacity (`make([]Folder, 0)` at both call sites): `null` sets
the slice to nil, an array replaces it, any other value is a type error that
leaves it alone. -/
def decodeFolders (v : JSON) (cur : List Folder) : List Folder × Option GoError :=
  match v with
  | JSON.null => ([], none)
  | JSON.arr elems => decodeElems elems none
  | JSON.obj _ => (cur, some (GoError.typeMismatch "object" "[]gapi.Folder"))
  | JSON.str _ => (cur, some (GoError.typeMismatch "string" "[]gapi.Folder"))
  | JSON.num _ => (cur, some (GoError.typeMismatch "number" "[]gapi.Folder"))
  | JSON.bool _ => (cur, some (GoError.typeMismatch "bool" "[]gapi.Folder"))

/-- The call `json.Unmarshal(data, &folders)` with `folders` of type
`[]Folder`: a text that is not valid JSON is rejected before anything is
stored. Returns the new content of `folders` and the error. -/
def unmarshalFolders (data : String) (cur : List Folder) : List Folder × Option GoError :=
  match parseJSON data with
  | none => (cur, some GoError.invalidJSON)
  | some v => decodeFolders v cur

/-- The call `json.Unmarshal(data, &folder)` with `folder` of type `Folder`.
Returns the new content of `folder` and the error. -/
def unmarshalFolder (data : String) (cur : Folder) : Folder × Option GoError :=
  match parseJSON data with
  | none => (cur, some GoError.invalidJSON)
  | some v => decodeFolder v cur none

/-- The call `json.Unmarshal(data, &folder)` with `folder` of type `*Folder`,
so that the target is a pointer to a pointer: the JSON literal `null` sets
`folder` to nil, any other value is decoded into the struct `folder` points
to (allocated first when `folder` is nil). Returns the new `folder` and the
error. -/
def unmarshalFolderPtr (data : String) (cur : Option Folder) : Option Folder × Option GoError :=
  match parseJSON data with
  | none => (cur, some GoError.invalidJSON)
  | some JSON.null => (none, none)
  | some v =>
    (some (decodeFolder v (cur.getD Folder.zero) none).1,
      (decodeFolder v (cur.getD Folder.zero) none).2)

/-! ## Go strings as bytes -/

/-- A Go `string` whose bytes matter, as the list of its bytes (numbers below
256). The strings `json.Marshal` encodes are of this kind: what it writes
depends on whether the bytes are valid UTF-8. -/
abbrev Bytes := List Nat

/-- The UTF-8 encoding of one code point (`utf8.EncodeRune`). -/
def utf8EncodeChar (c : Char) : Bytes :=
  if c.toNat < 0x80 then [c.toNat]
  else if c.toNat < 0x800 then [0xC0 + c.toNat / 64, 0x80 + c.toNat % 64]
  else if c.toNat < 0x10000 then
    [0xE0 + c.toNat / 4096, 0x80 + c.toNat / 64 % 64, 0x80 + c.toNat % 64]
  else
    [0xF0 + c.toNat / 262144, 0x80 + c.toNat / 4096 % 64, 0x80 + c.toNat / 64 % 64,
      0x80 + c.toNat % 64]

/-- The UTF-8 encoding of a sequence of code points. -/
def utf8Chars : List Char → Bytes
  | [] => []
  | c :: cs => utf8EncodeChar c ++ utf8Chars cs

/-- The Go string that holds a text: its UTF-8 bytes. -/
def utf8 (s : String) : Bytes := utf8Chars s.data

/-- What `utf8.DecodeRuneInString` finds at the head of a string: a validly
encoded code point, or (for `RuneError` with width 1) a byte that starts no
valid encoding. -/
inductive GoRune where
  | valid (c : Char)
  | invalid (byte : Nat)
deriving DecidableEq, Repr

/-- The call `utf8.DecodeRuneInString(s)` on a non-empty string, with the
rest of the string behind what was decoded. A lead byte fixes the length of
the encoding and the range of the second byte (`first` and `acceptRanges`);
when a byte is missing or out of range, only the lead byte is consumed. -/
def decodeRune (s : Bytes) : Option (GoRune × Bytes) :=
  match s with
  | [] => none
  | b0 :: rest =>
    if b0 < 0x80 then some (GoRune.valid (Char.ofNat b0), rest)
    else if b0 < 0xC2 then some (GoRune.invalid b0, rest)
    else if b0 < 0xE0 then
      match rest with
      | b1 :: rest1 =>
        if 0x80 ≤ b1 ∧ b1 ≤ 0xBF then
          some (GoRune.valid (Char.ofNat (b0 % 32 * 64 + b1 % 64)), rest1)
        else some (GoRune.invalid b0, rest)
      | _ => some (GoRune.invalid b0, rest)
    else if b0 < 0xF0 then
      match rest with
      | b1 :: b2 :: rest2 =>
        if (if b0 = 0xE0 then 0xA0 else 0x80) ≤ b1 ∧
            b1 ≤ (if b0 = 0xED then 0x9F else 0xBF) ∧ 0x80 ≤ b2 ∧ b2 ≤ 0xBF then
          some (GoRune.valid (Char.ofNat (b0 % 16 * 4096 + b1 % 64 * 64 + b2 % 64)), rest2)
        else some (GoRune.invalid b0, rest)
      | _ => some (GoRune.invalid b0, rest)
    else if b0 < 0xF5 then
      match rest with
      | b1 :: b2 :: b3 :: rest3 =>
        if (if b0 = 0xF0 then 0x90 else 0x80) ≤ b1 ∧
            b1 ≤ (if b0 = 0xF4 then 0x8F else 0xBF) ∧ 0x80 ≤ b2 ∧ b2 ≤ 0xBF ∧
            0x80 ≤ b3 ∧ b3 ≤ 0xBF then
          some (GoRune.valid
            (Char.ofNat (b0 % 8 * 262144 + b1 % 64 * 4096 + b2 % 64 * 64 + b3 % 64)), rest3)
        else some (GoRune.invalid b0, rest)
      | _ => some (GoRune.invalid b0, rest)
    else some (GoRune.invalid b0, rest)

/-- A string cut into the pieces `utf8.DecodeRuneInString` reads one after
the other; every piece has at least one byte, so fuel equal to the length of
the string suffices. -/
def decodeRunes : Nat → Bytes → List GoRune
  | 0, _ => []
  | fuel + 1, s =>
    match decodeRune s with
    | none => []
    | some (r, rest) => r :: decodeRunes fuel rest

/-- The code point a piece stands for once the string is coerced to valid
UTF-8: itself, or U+FFFD for a byte that is not valid. -/
def GoRune.char : GoRune → Char
  | GoRune.valid c => c
  | GoRune.invalid _ => replacementChar

/-- A string coerced to valid UTF-8, as a text: every byte that is not part
of a valid encoding is replaced by U+FFFD. -/
def toValidUTF8 (s : Bytes) : String :=
  String.mk ((decodeRunes s.length s).map GoRune.char)

/-! ## `json.Marshal` of a `map[string]string` -/

/-- Lower-case hexadecimal digit of a number below 16. -/
def hexDigit (n : Nat) : Char :=
  if n < 10 then Char.ofNat (48 + n) else Char.ofNat (87 + n)

/-- Escape one code point of a string the way the encoder does with HTML
escaping on (the default of `Marshal`): quote and backslash get a backslash,
backspace, form feed, newline, carriage return and tab their short forms,
other control characters and `<`, `>`, `&` the form `\u00XX`, and U+2028,
U+2029 the form `\u202X`. (Releases of Go before 1.22 wrote backspace and
form feed as `\u0008` and `\u000c`; the decoder reads both forms alike.) -/
def escapeChar (c : Char) : List Char :=
  if c = dquote then [bslash, dquote]
  else if c = bslash then [bslash, bslash]
  else if c = Char.ofNat 8 then [bslash, 'b']
  else if c = Char.ofNat 12 then [bslash, 'f']
  else if c = Char.ofNat 10 then [bslash, 'n']
  else if c = Char.ofNat 13 then [bslash, 'r']
  else if c = Char.ofNat 9 then [bslash, 't']
  else if c.toNat < 0x20 ∨ c = '<' ∨ c = '>' ∨ c = '&' then
    [bslash, 'u', '0', '0', hexDigit (c.toNat / 16), hexDigit (c.toNat % 16)]
  else if c = Char.ofNat 0x2028 ∨ c = Char.ofNat 0x2029 then
    [bslash, 'u', '2', '0', '2', hexDigit (c.toNat % 16)]
  else [c]

/-- Escape one piece of a string: a code point as `escapeChar` says, a byte
that is not valid UTF-8 as `�`. -/
def escapeRune : GoRune → List Char
  | GoRune.valid c => escapeChar c
  | GoRune.invalid _ => [bslash, 'u', 'f', 'f', 'f', 'd']

/-- Escape every piece of a string. -/
def escapeRunes : List GoRune → List Char
  | [] => []
  | r :: rs => escapeRune r ++ escapeRunes rs

/-- A string as a JSON string literal (`encodeState.string`). -/
def encodeString (s : Bytes) : List Char :=
  dquote :: (escapeRunes (decodeRunes s.length s) ++ [dquote])

/-- Insert an entry into a list of entries sorted by key (keys compare
lexicographically, byte by byte). -/
def insertSorted (kv : Bytes × Bytes) : List (Bytes × Bytes) → List (Bytes × Bytes)
  | [] => [kv]
  | x :: xs => if kv.1 < x.1 then kv :: x :: xs else x :: insertSorted kv xs

/-- The entries of a map in the order the encoder writes them: sorted by
key. -/
def sortedEntries : List (Bytes × Bytes) → List (Bytes × Bytes)
  | [] => []
  | kv :: rest => insertSorted kv (sortedEntries rest)

/-- The members of an object, comma separated. -/
def encodeMembers : List (Bytes × Bytes) → List Char
  | [] => []
  | [kv] => encodeString kv.1 ++ ':' :: encodeString kv.2
  | kv :: kv2 :: rest =>
    encodeString kv.1 ++ ':' :: (encodeString kv.2 ++ ',' :: encodeMembers (kv2 :: rest))

/-- The call `json.Marshal(dataMap)` for a `map[string]string` given by its
entries (distinct keys); it cannot fail. What it writes is valid UTF-8 and is
kept as a text. -/
def marshalMap (dataMap : List (Bytes × Bytes)) : String :=
  String.mk ('{' :: (encodeMembers (sortedEntries dataMap) ++ ['}']))

/-! ## `fmt.Sprintf` -/

/-- Decimal digits of a natural number, most significant first, in front of
`acc` (the loop of `strconv.formatBits` in base 10); fuel above `n` is
enough. -/
def formatNatAux : Nat → Nat → List Char → List Char
  | 0, _, acc => acc
  | fuel + 1, n, acc =>
    if n < 10 then Char.ofNat (48 + n) :: acc
    else formatNatAux fuel (n / 10) (Char.ofNat (48 + n % 10) :: acc)

/-- Decimal rendering of a natural number. -/
def formatNat (n : Nat) : List Char := formatNatAux (n + 1) n []

/-- The verb `%d` applied to an `int64`: a minus sign for negative numbers,
then the decimal digits of the magnitude. -/
def formatInt (i : Int) : List Char :=
  match i with
  | Int.ofNat n => formatNat n
  | Int.negSucc n => '-' :: formatNat (n + 1)

/-! ## The collaborators -/

/-- The type `url.Values`: keys with their lists of values. -/
abbrev Values := List (String × List String)

/-- The method `Values.Add`: append the value to the list of the key. -/
def Values.Add : Values → String → String → Values
  | [], key, value => [(key, [value])]
  | (k, vs) :: rest, key, value =>
    if k = key then (k, vs ++ [value]) :: rest else (k, vs) :: Values.Add rest key value

/-- The arguments of one call `c.newRequest(method, requestPath, query, body)`;
`none` stands for a nil query and a nil body reader, `some data` for
`bytes.NewBuffer(data)`. -/
structure RequestArgs where
  method : String
  requestPath : String
  query : Option Values
  body : Option String
deriving DecidableEq, Repr

/-- A response body as `ioutil.ReadAll` sees it: the bytes it delivers and
the error it ends with, if any. -/
structure ResponseBody where
  data : String
  err : Option GoError
deriving DecidableEq, Repr

/-- The call `ioutil.ReadAll(body)`. -/
def ReadAll (body : ResponseBody) : String × Option GoError := (body.data, body.err)

/-- The fields of `http.Response` that `folder.go` reads. -/
structure Response where
  StatusCode : Int
  Status : String
  Body : ResponseBody
deriving DecidableEq, Repr

/-- The receiver `*Client` as far as `folder.go` uses it: the request
builder and the request executor, both defined outside `folder.go`. `Req`
is the type of built requests. -/
structure Client (Req : Type) where
  newRequest : RequestArgs → Except GoError Req
  Do : Req → Except GoError Response

/-- One call made to a collaborator. -/
inductive Call (Req : Type) where
  | newRequest (args : RequestArgs)
  | Do (req : Req)

/-- What an operation hands back: its Go results and the calls it made to
the collaborators, in order. -/
structure Outcome (Req : Type) (α : Type) where
  value : α
  err : Option GoError
  calls : List (Call Req)

/-- The arguments of the `newRequest` calls of an operation. -/
def Outcome.built {Req α : Type} (o : Outcome Req α) : List RequestArgs :=
  o.calls.filterMap fun call =>
    match call with
    | Call.newRequest args => some args
    | Call.Do _ => none

/-- The requests an operation passed to the executor `Do`. -/
def Outcome.sent {Req α : Type} (o : Outcome Req α) : List Req :=
  o.calls.filterMap fun call =>
    match call with
    | Call.newRequest _ => none
    | Call.Do req => some req

/-! ## The operations of `folder.go` -/

/-- The method `Client.Folders`. -/
def Client.Folders {Req : Type} (c : Client Req) : Outcome Req (List Gapi.Folder) :=
  let folders : List Gapi.Folder := []
  let args : RequestArgs := ⟨"GET", "/api/folders/", none, none⟩
  match c.newRequest args with
  | Except.error err => ⟨folders, some err, [Call.newRequest args]⟩
  | Except.ok req =>
    match c.Do req with
    | Except.error err => ⟨folders, some err, [Call.newRequest args, Call.Do req]⟩
    | Except.ok resp =>
      if resp.StatusCode ≠ 200 then
        ⟨folders, some (errorsNew resp.Status), [Call.newRequest args, Call.Do req]⟩
      else
        match (ReadAll resp.Body).2 with
        | some err => ⟨folders, some err, [Call.newRequest args, Call.Do req]⟩
        | none =>
          ⟨(unmarshalFolders (ReadAll resp.Body).1 folders).1,
            (unmarshalFolders (ReadAll resp.Body).1 folders).2,
            [Call.newRequest args, Call.Do req]⟩

/-- The method `Client.Folder`. -/
def Client.Folder {Req : Type} (c : Client Req) (id : Int) : Outcome Req (Option Gapi.Folder) :=
  let folder : Option Gapi.Folder := some Gapi.Folder.zero
  let args : RequestArgs :=
    ⟨"GET", "/api/folders/id/" ++ String.mk (formatInt id), none, none⟩
  match c.newRequest args with
  | Except.error err => ⟨folder, some err, [Call.newRequest args]⟩
  | Except.ok req =>
    match c.Do req with
    | Except.error err => ⟨folder, some err, [Call.newRequest args, Call.Do req]⟩
    | Except.ok resp =>
      if resp.StatusCode ≠ 200 then
        ⟨folder, some (errorsNew resp.Status), [Call.newRequest args, Call.Do req]⟩
      else
        match (ReadAll resp.Body).2 with
        | some err => ⟨folder, some err, [Call.newRequest args, Call.Do req]⟩
        | none =>
          ⟨(unmarshalFolderPtr (ReadAll resp.Body).1 folder).1,
            (unmarshalFolderPtr (ReadAll resp.Body).1 folder).2,
            [Call.newRequest args, Call.Do req]⟩

/-- The method `Client.SearchFolder`. -/
def Client.SearchFolder {Req : Type} (c : Client Req) (query : String) : Outcome Req (List Gapi.Folder) :=
  let folders : List Gapi.Folder := []
  let path := "/api/search"
  let params : Values := Values.Add (Values.Add [] "type" "dash-folder") "query" query
  let args : RequestArgs := ⟨"GET", path, some params, none⟩
  match c.newRequest args with
  | Except.error err => ⟨folders, some err, [Call.newRequest args]⟩
  | Except.ok req =>
    match c.Do req with
    | Except.error err => ⟨folders, some err, [Call.newRequest args, Call.Do req]⟩
    | Except.ok resp =>
      if resp.StatusCode ≠ 200 then
        ⟨folders, some (errorsNew resp.Status), [Call.newRequest args, Call.Do req]⟩
      else
        match (ReadAll resp.Body).2 with
        | some err => ⟨folders, some err, [Call.newRequest args, Call.Do req]⟩
        | none =>
          ⟨(unmarshalFolders (ReadAll resp.Body).1 folders).1,
            (unmarshalFolders (ReadAll resp.Body).1 folders).2,
            [Call.newRequest args, Call.Do req]⟩

/-- The method `Client.FolderByUID`. -/
def Client.FolderByUID {Req : Type} (c : Client Req) (uid : String) : Outcome Req (Option Gapi.Folder) :=
  let folder : Option Gapi.Folder := some Gapi.Folder.zero
  let args : RequestArgs := ⟨"GET", "/api/folders/" ++ uid, none, none⟩
  match c.newRequest args with
  | Except.error err => ⟨folder, some err, [Call.newRequest args]⟩
  | Except.ok req =>
    match c.Do req with
    | Except.error err => ⟨folder, some err, [Call.newRequest args, Call.Do req]⟩
    | Except.ok resp =>
      if resp.StatusCode ≠ 200 then
        ⟨folder, some (errorsNew resp.Status), [Call.newRequest args, Call.Do req]⟩
      else
        match (ReadAll resp.Body).2 with
        | some err => ⟨folder, some err, [Call.newRequest args, Call.Do req]⟩
        | none =>
          ⟨(unmarshalFolderPtr (ReadAll resp.Body).1 folder).1,
            (unmarshalFolderPtr (ReadAll resp.Body).1 folder).2,
            [Call.newRequest args, Call.Do req]⟩

/-- The method `Client.NewFolderWithUID`. The error of `json.Marshal` is
overwritten by the next assignment and a string map cannot fail to encode. -/
def Client.NewFolderWithUID {Req : Type} (c : Client Req) (title uid : Bytes) :
    Outcome Req Gapi.Folder :=
  let folder : Gapi.Folder := Gapi.Folder.zero
  let dataMap : List (Bytes × Bytes) := [(utf8 "title", title), (utf8 "uid", uid)]
  let data := marshalMap dataMap
  let args : RequestArgs := ⟨"POST", "/api/folders", none, some data⟩
  match c.newRequest args with
  | Except.error err => ⟨folder, some err, [Call.newRequest args]⟩
  | Except.ok req =>
    match c.Do req with
    | Except.error err => ⟨folder, some err, [Call.newRequest args, Call.Do req]⟩
    | Except.ok resp =>
      if resp.StatusCode ≠ 200 then
        ⟨folder, some (errorfStatusBody resp.Status (ReadAll resp.Body).1),
          [Call.newRequest args, Call.Do req]⟩
      else
        match (ReadAll resp.Body).2 with
        | some err => ⟨folder, some err, [Call.newRequest args, Call.Do req]⟩
        | none =>
          match (unmarshalFolder (ReadAll resp.Body).1 folder).2 with
          | some err =>
            ⟨(unmarshalFolder (ReadAll resp.Body).1 folder).1, some err,
              [Call.newRequest args, Call.Do req]⟩
          | none =>
            ⟨(unmarshalFolder (ReadAll resp.Body).1 folder).1, none,
              [Call.newRequest args, Call.Do req]⟩

/-- The method `Client.NewFolder`. -/
def Client.NewFolder {Req : Type} (c : Client Req) (title : Bytes) : Outcome Req Gapi.Folder :=
  let folder : Gapi.Folder := Gapi.Folder.zero
  let dataMap : List (Bytes × Bytes) := [(utf8 "title", title)]
  let data := marshalMap dataMap
  let args : RequestArgs := ⟨"POST", "/api/folders", none, some data⟩
  match c.newRequest args with
  | Except.error err => ⟨folder, some err, [Call.newRequest args]⟩
  | Except.ok req =>
    match c.Do req with
    | Except.error err => ⟨folder, some err, [Call.newRequest args, Call.Do req]⟩
    | Except.ok resp =>
      if resp.StatusCode ≠ 200 then
        ⟨folder, some (errorfStatusBody resp.Status (ReadAll resp.Body).1),
          [Call.newRequest args, Call.Do req]⟩
      else
        match (ReadAll resp.Body).2 with
        | some err => ⟨folder, some err, [Call.newRequest args, Call.Do req]⟩
        | none =>
          match (unmarshalFolder (ReadAll resp.Body).1 folder).2 with
          | some err =>
            ⟨(unmarshalFolder (ReadAll resp.Body).1 folder).1, some err,
              [Call.newRequest args, Call.Do req]⟩
          | none =>
            ⟨(unmarshalFolder (ReadAll resp.Body).1 folder).1, none,
              [Call.newRequest args, Call.Do req]⟩

/-- The method `Client.UpdateFolder`; it returns an error only. -/
def Client.UpdateFolder {Req : Type} (c : Client Req) (id : String) (name : Bytes) :
    Outcome Req Unit :=
  let dataMap : List (Bytes × Bytes) := [(utf8 "name", name)]
  let data := marshalMap dataMap
  let args : RequestArgs := ⟨"PUT", "/api/folders/" ++ id, none, some data⟩
  match c.newRequest args with
  | Except.error err => ⟨(), some err, [Call.newRequest args]⟩
  | Except.ok req =>
    match c.Do req with
    | Except.error err => ⟨(), some err, [Call.newRequest args, Call.Do req]⟩
    | Except.ok resp =>
      if resp.StatusCode ≠ 200 then
        ⟨(), some (errorsNew resp.Status), [Call.newRequest args, Call.Do req]⟩
      else ⟨(), none, [Call.newRequest args, Call.Do req]⟩

/-- The method `Client.DeleteFolder`; it returns an error only. -/
def Client.DeleteFolder {Req : Type} (c : Client Req) (id : String) : Outcome Req Unit :=
  let args : RequestArgs := ⟨"DELETE", "/api/folders/" ++ id, none, none⟩
  match c.newRequest args with
  | Except.error err => ⟨(), some err, [Call.newRequest args]⟩
  | Except.ok req =>
    match c.Do req with
    | Except.error err => ⟨(), some err, [Call.newRequest args, Call.Do req]⟩
    | Except.ok resp =>
      if resp.StatusCode ≠ 200 then
        ⟨(), some (errorsNew resp.Status), [Call.newRequest args, Call.Do req]⟩
      else ⟨(), none, [Call.newRequest args, Call.Do req]⟩


/-! ## Vocabulary of the statements -/

/-- The common skeleton of the eight operations: build the request, send it,
and compute the results from the response; on a failure of either
collaborator hand back `zero` and the error. -/
def roundTrip {Req α : Type} (c : Client Req) (args : RequestArgs) (zero : α)
    (onResponse : Response → α × Option GoError) : Outcome Req α :=
  match c.newRequest args with
  | Except.error err => ⟨zero, some err, [Call.newRequest args]⟩
  | Except.ok req =>
    match c.Do req with
    | Except.error err => ⟨zero, some err, [Call.newRequest args, Call.Do req]⟩
    | Except.ok resp =>
      ⟨(onResponse resp).1, (onResponse resp).2, [Call.newRequest args, Call.Do req]⟩

/-- The executor answered a request of the operation with `resp`. -/
def Outcome.answeredBy {Req α : Type} (o : Outcome Req α) (c : Client Req)
    (resp : Response) : Prop :=
  ∃ req, req ∈ o.sent ∧ c.Do req = Except.ok resp

/-- The executor failed with `e` on a request of the operation. -/
def Outcome.sendFailedWith {Req α : Type} (o : Outcome Req α) (c : Client Req)
    (e : GoError) : Prop :=
  ∃ req, req ∈ o.sent ∧ c.Do req = Except.error e

/-- Building a request of the operation failed with `e`. -/
def Outcome.buildFailedWith {Req α : Type} (o : Outcome Req α) (c : Client Req)
    (e : GoError) : Prop :=
  ∃ args, args ∈ o.built ∧ c.newRequest args = Except.error e

/-- The text `s` occurs in `msg`. -/
def containsText (msg s : String) : Prop := ∃ pre post : String, msg = pre ++ s ++ post

/-- What `Folders` and `SearchFolder` make of a response. -/
def listOnResponse (resp : Response) : List Folder × Option GoError :=
  if resp.StatusCode ≠ 200 then ([], some (errorsNew resp.Status))
  else
    match (ReadAll resp.Body).2 with
    | some err => ([], some err)
    | none => unmarshalFolders (ReadAll resp.Body).1 []

/-- What `Folder` and `FolderByUID` make of a response. -/
def getOnResponse (resp : Response) : Option Folder × Option GoError :=
  if resp.StatusCode ≠ 200 then (some Folder.zero, some (errorsNew resp.Status))
  else
    match (ReadAll resp.Body).2 with
    | some err => (some Folder.zero, some err)
    | none => unmarshalFolderPtr (ReadAll resp.Body).1 (some Folder.zero)

/-- What `NewFolder` and `NewFolderWithUID` make of a response. -/
def createOnResponse (resp : Response) : Folder × Option GoError :=
  if resp.StatusCode ≠ 200 then
    (Folder.zero, some (errorfStatusBody resp.Status (ReadAll resp.Body).1))
  else
    match (ReadAll resp.Body).2 with
    | some err => (Folder.zero, some err)
    | none => unmarshalFolder (ReadAll resp.Body).1 Folder.zero

/-- What `UpdateFolder` and `DeleteFolder` make of a response. -/
def statusOnResponse (resp : Response) : Unit × Option GoError :=
  if resp.StatusCode ≠ 200 then ((), some (errorsNew resp.Status)) else ((), none)

/-- The values of type `int64`. -/
def inInt64 (i : Int) : Prop := -(2 ^ 63 : Int) ≤ i ∧ i < (2 ^ 63 : Int)

/-- A folder as a JSON object of the response shape
`{"id": int64, "uid": string, "title": string}`. -/
def folderJSON (f : Folder) : JSON :=
  JSON.obj [("id", JSON.num (formatInt f.Id)), ("uid", JSON.str f.Uid),
    ("title", JSON.str f.Title)]

/-- An object member agrees with the folder `f`: if its key names the field
`id` it is an integer literal that denotes `f.Id`, if it names `uid` or
`title` it is the string `f` has there; members naming no field are free. -/
def memberCarries (f : Folder) (kv : String × JSON) : Bool :=
  if fieldMatches kv.1 "id" then
    match kv.2 with
    | JSON.num lit => decide (parseInt64 lit = some f.Id)
    | _ => false
  else if fieldMatches kv.1 "uid" then
    match kv.2 with
    | JSON.str s => decide (s = f.Uid)
    | _ => false
  else if fieldMatches kv.1 "title" then
    match kv.2 with
    | JSON.str s => decide (s = f.Title)
    | _ => false
  else true

/-- The JSON value is a folder object for `f`: an object that gives `id`,
`uid` and `title`, each with the value `f` has, in any order and next to any
other members. -/
def isFolderObject (f : Folder) (v : JSON) : Bool :=
  match v with
  | JSON.obj members =>
    members.all (memberCarries f) &&
      (members.any (fun kv => fieldMatches kv.1 "id") &&
        (members.any (fun kv => fieldMatches kv.1 "uid") &&
          members.any (fun kv => fieldMatches kv.1 "title")))
  | _ => false

/-- The JSON values are folder objects for the folders, one by one and in the
same order. -/
def areFolderObjects : List JSON → List Folder → Bool
  | [], [] => true
  | v :: vs, f :: fs => isFolderObject f v && areFolderObjects vs fs
  | _, _ => false

/-- A JSON value an `int64` field accepts: `null` or an integer literal in
range. -/
def fitsInt64 : JSON → Bool
  | JSON.null => true
  | JSON.num lit => (parseInt64 lit).isSome
  | _ => false

/-- A JSON value a `string` field accepts: `null` or a string. -/
def fitsString : JSON → Bool
  | JSON.null => true
  | JSON.str _ => true
  | _ => false

/-- An object member is well typed for `Folder`: it names no field, or its
value fits the field it names. -/
def memberFits (kv : String × JSON) : Bool :=
  if fieldMatches kv.1 "id" then fitsInt64 kv.2
  else if fieldMatches kv.1 "uid" then fitsString kv.2
  else if fieldMatches kv.1 "title" then fitsString kv.2
  else true

/-- A JSON value has the shape of a `Folder`: `null`, or an object all of
whose members are well typed. -/
def fitsFolder : JSON → Bool
  | JSON.null => true
  | JSON.obj members => members.all memberFits
  | _ => false

/-- A JSON value has the shape of a `[]Folder`: `null`, or an array of values
of the shape of a `Folder`. -/
def fitsFolders : JSON → Bool
  | JSON.null => true
  | JSON.arr elems => elems.all fitsFolder
  | _ => false

/-- The last entry of a list, or `d` for the empty list. -/
def lastOr {α : Type} : List α → α → α
  | [], d => d
  | x :: xs, _ => lastOr xs x

/-- The number a member gives for the field `id`: the value of an integer
literal in the `int64` range, when the key of the member names `id`. -/
def idOf (kv : String × JSON) : Option Int :=
  if fieldMatches kv.1 "id" then
    match kv.2 with
    | JSON.num lit => parseInt64 lit
    | _ => none
  else none

/-- The string a member gives for the field called `name`: its value when
that is a string and the key of the member names the field. -/
def stringOf (name : String) (kv : String × JSON) : Option String :=
  if fieldMatches kv.1 name then
    match kv.2 with
    | JSON.str s => some s
    | _ => none
  else none

/-- The Folder a JSON value leaves in a zero-valued target, whether the
decoder reports an error or not: for an object every field holds what the
last member that names it with a value of its type gives, and the zero value
if there is no such member; any other value leaves the zero Folder. -/
def expectedFolder (v : JSON) : Folder :=
  match v with
  | JSON.obj members =>
    ⟨lastOr (members.filterMap idOf) 0, lastOr (members.filterMap (stringOf "uid")) "",
      lastOr (members.filterMap (stringOf "title")) ""⟩
  | _ => Folder.zero

/-- The sequence a JSON value leaves in an empty target slice: one Folder
per element of an array, nothing for any other value. -/
def expectedFolders (v : JSON) : List Folder :=
  match v with
  | JSON.arr elems => elems.map expectedFolder
  | _ => []

/-- Whether a rune came from a valid encoding. -/
def GoRune.isValid : GoRune → Bool
  | GoRune.valid _ => true
  | GoRune.invalid _ => false

/-- The test `utf8.Valid`: the string splits into valid encodings only. -/
def validUTF8 (s : Bytes) : Bool := (decodeRunes s.length s).all GoRune.isValid

/-- The members of the JSON object that a list of string entries denotes once
keys and values are coerced to valid UTF-8. -/
def stringMembers (entries : List (Bytes × Bytes)) : List (String × JSON) :=
  entries.map fun kv => (toValidUTF8 kv.1, JSON.str (toValidUTF8 kv.2))

/-! ## Sample clients, responses and bodies -/

/-- A client whose builder hands the arguments on and whose executor answers
every request with the given response. -/
def cannedClient (resp : Response) : Client RequestArgs :=
  ⟨fun args => Except.ok args, fun _ => Except.ok resp⟩

/-- A client whose builder hands the arguments on and whose executor fails
with the given error. -/
def unreachableClient (e : GoError) : Client RequestArgs :=
  ⟨fun args => Except.ok args, fun _ => Except.error e⟩

/-- A client whose builder fails with the given error. -/
def brokenClient (e : GoError) : Client RequestArgs :=
  ⟨fun _ => Except.error e, fun _ => Except.error (GoError.external "unused")⟩

/-- A `200 OK` response with the given body. -/
def okResponse (body : String) : Response := ⟨200, "200 OK", ⟨body, none⟩⟩

/-- A `404 Not Found` response with a JSON error body. -/
def notFound : Response :=
  ⟨404, "404 Not Found", ⟨"\x7b\"message\":\"Folder not found\"\x7d", none⟩⟩

/-- A `422` response carrying a validation message. -/
def unprocessable : Response :=
  ⟨422, "422 Unprocessable Entity", ⟨"\x7b\"message\":\"title cannot be empty\"\x7d", none⟩⟩

/-- A response body listing two folders, with whitespace, an escape, a
negative id, an extra member and members out of order. -/
def twoFoldersBody : String :=
  "[\x7b\"id\":1,\"uid\":\"a\",\"title\":\"A\\u0026B\",\"url\":\"/dashboards/f/a\"\x7d, \x7b\"title\":\"\",\"uid\":\"b\",\"id\":-2\x7d ]"

/-- The elements of `twoFoldersBody`. -/
def twoFoldersElems : List JSON :=
  [JSON.obj [("id", JSON.num ['1']), ("uid", JSON.str "a"), ("title", JSON.str "A&B"),
      ("url", JSON.str "/dashboards/f/a")],
    JSON.obj [("title", JSON.str ""), ("uid", JSON.str "b"), ("id", JSON.num ['-', '2'])]]

/-- The response body of the scenario for `Folder(5)`. -/
def infraBody : String := "\x7b\"id\":5,\"uid\":\"abc123\",\"title\":\"Infra\"\x7d"

/-- The body of the example of a wrongly typed element: the first element is
a well-formed folder, the second has a string `"id"`. -/
def mistypedSecondBody : String :=
  "[\x7b\"id\":1,\"uid\":\"a\",\"title\":\"A\"\x7d,\x7b\"id\":\"x\",\"uid\":\"b\",\"title\":\"B\"\x7d]"

/-- A body whose `"id"` is a string. -/
def mistypedIdBody : String := "\x7b\"id\":\"x\",\"uid\":\"b\",\"title\":\"B\"\x7d"

/-- The JSON value of `mistypedIdBody`. -/
def mistypedIdValue : JSON :=
  JSON.obj [("id", JSON.str "x"), ("uid", JSON.str "b"), ("title", JSON.str "B")]

/-- The JSON value of `mistypedSecondBody`. -/
def mistypedSecondValue : JSON :=
  JSON.arr [JSON.obj [("id", JSON.num ['1']), ("uid", JSON.str "a"), ("title", JSON.str "A")],
    mistypedIdValue]

/-! ## The operations follow the common skeleton -/

theorem Folders_eq {Req : Type} (c : Client Req) :
    c.Folders = roundTrip c ⟨"GET", "/api/folders/", none, none⟩ [] listOnResponse := by
  unfold Client.Folders roundTrip listOnResponse
  simp only [Values.Add, reduceCtorEq, ↓reduceIte, List.nil_append, String.reduceEq]
  repeat' split
  all_goals rfl

theorem Folder_eq {Req : Type} (c : Client Req) (id : Int) :
    c.Folder id = roundTrip c ⟨"GET", "/api/folders/id/" ++ String.mk (formatInt id), none, none⟩
      (some Folder.zero) getOnResponse := by
  unfold Client.Folder roundTrip getOnResponse
  simp only [Values.Add, reduceCtorEq, ↓reduceIte, List.nil_append, String.reduceEq]
  repeat' split
  all_goals rfl

theorem SearchFolder_eq {Req : Type} (c : Client Req) (query : String) :
    c.SearchFolder query = roundTrip c
      ⟨"GET", "/api/search", some [("type", ["dash-folder"]), ("query", [query])], none⟩
      [] listOnResponse := by
  unfold Client.SearchFolder roundTrip listOnResponse
  simp only [Values.Add, reduceCtorEq, ↓reduceIte, List.nil_append, String.reduceEq]
  repeat' split
  all_goals rfl

theorem FolderByUID_eq {Req : Type} (c : Client Req) (uid : String) :
    c.FolderByUID uid = roundTrip c ⟨"GET", "/api/folders/" ++ uid, none, none⟩
      (some Folder.zero) getOnResponse := by
  unfold Client.FolderByUID roundTrip getOnResponse
  simp only [Values.Add, reduceCtorEq, ↓reduceIte, List.nil_append, String.reduceEq]
  repeat' split
  all_goals rfl

theorem NewFolderWithUID_eq {Req : Type} (c : Client Req) (title uid : Bytes) :
    c.NewFolderWithUID title uid = roundTrip c
      ⟨"POST", "/api/folders", none,
        some (marshalMap [(utf8 "title", title), (utf8 "uid", uid)])⟩
      Folder.zero createOnResponse := by
  unfold Client.NewFolderWithUID roundTrip createOnResponse
  simp only [Values.Add, reduceCtorEq, ↓reduceIte, List.nil_append, String.reduceEq]
  repeat' split
  all_goals first | rfl | simp_all

theorem NewFolder_eq {Req : Type} (c : Client Req) (title : Bytes) :
    c.NewFolder title = roundTrip c
      ⟨"POST", "/api/folders", none, some (marshalMap [(utf8 "title", title)])⟩
      Folder.zero createOnResponse := by
  unfold Client.NewFolder roundTrip createOnResponse
  simp only [Values.Add, reduceCtorEq, ↓reduceIte, List.nil_append, String.reduceEq]
  repeat' split
  all_goals first | rfl | simp_all

theorem UpdateFolder_eq {Req : Type} (c : Client Req) (id : String) (name : Bytes) :
    c.UpdateFolder id name = roundTrip c
      ⟨"PUT", "/api/folders/" ++ id, none, some (marshalMap [(utf8 "name", name)])⟩
      () statusOnResponse := by
  unfold Client.UpdateFolder roundTrip statusOnResponse
  simp only [Values.Add, reduceCtorEq, ↓reduceIte, List.nil_append, String.reduceEq]
  repeat' split
  all_goals rfl

theorem DeleteFolder_eq {Req : Type} (c : Client Req) (id : String) :
    c.DeleteFolder id = roundTrip c ⟨"DELETE", "/api/folders/" ++ id, none, none⟩
      () statusOnResponse := by
  unfold Client.DeleteFolder roundTrip statusOnResponse
  simp only [Values.Add, reduceCtorEq, ↓reduceIte, List.nil_append, String.reduceEq]
  repeat' split
  all_goals rfl

/-! ## Facts about the common skeleton -/

theorem roundTrip_built {Req α : Type} (c : Client Req) (args : RequestArgs) (zero : α)
    (f : Response → α × Option GoError) : (roundTrip c args zero f).built = [args] := by
  unfold roundTrip
  repeat' split
  all_goals rfl

theorem roundTrip_sent_length {Req α : Type} (c : Client Req) (args : RequestArgs) (zero : α)
    (f : Response → α × Option GoError) : (roundTrip c args zero f).sent.length ≤ 1 := by
  unfold roundTrip
  repeat' split
  all_goals simp [Outcome.sent]

theorem roundTrip_sent_from_built {Req α : Type} (c : Client Req) (args : RequestArgs)
    (zero : α) (f : Response → α × Option GoError) (req : Req)
    (h : req ∈ (roundTrip c args zero f).sent) : c.newRequest args = Except.ok req := by
  unfold roundTrip at h
  split at h
  · simp [Outcome.sent] at h
  · rename_i r hr
    have hreq : req = r := by
      split at h <;> simpa [Outcome.sent] using h
    rw [hreq]; exact hr

theorem roundTrip_sent_of_built {Req α : Type} (c : Client Req) (args : RequestArgs)
    (zero : α) (f : Response → α × Option GoError) (req : Req)
    (h : c.newRequest args = Except.ok req) : (roundTrip c args zero f).sent = [req] := by
  unfold roundTrip
  rw [h]
  simp only []
  repeat' split
  all_goals rfl

theorem roundTrip_answered {Req α : Type} (c : Client Req) (args : RequestArgs) (zero : α)
    (f : Response → α × Option GoError) (resp : Response)
    (h : (roundTrip c args zero f).answeredBy c resp) :
    (roundTrip c args zero f).value = (f resp).1 ∧ (roundTrip c args zero f).err = (f resp).2 := by
  obtain ⟨req, hmem, hdo⟩ := h
  have hnew := roundTrip_sent_from_built c args zero f req hmem
  simp [roundTrip, hnew, hdo]

theorem roundTrip_sendFailed {Req α : Type} (c : Client Req) (args : RequestArgs) (zero : α)
    (f : Response → α × Option GoError) (e : GoError)
    (h : (roundTrip c args zero f).sendFailedWith c e) :
    (roundTrip c args zero f).value = zero ∧ (roundTrip c args zero f).err = some e ∧
      (roundTrip c args zero f).sent.length = 1 := by
  obtain ⟨req, hmem, hdo⟩ := h
  have hnew := roundTrip_sent_from_built c args zero f req hmem
  simp [roundTrip, hnew, hdo, Outcome.sent]

theorem roundTrip_buildFailed {Req α : Type} (c : Client Req) (args : RequestArgs) (zero : α)
    (f : Response → α × Option GoError) (e : GoError)
    (h : (roundTrip c args zero f).buildFailedWith c e) :
    (roundTrip c args zero f).value = zero ∧ (roundTrip c args zero f).err = some e ∧
      (roundTrip c args zero f).sent = [] := by
  obtain ⟨a, hmem, hnew⟩ := h
  rw [roundTrip_built] at hmem
  have ha : a = args := by simpa using hmem
  subst ha
  simp [roundTrip, hnew, Outcome.sent]

theorem containsText_self (s : String) : containsText s s :=
  ⟨"", "", by simp⟩

theorem containsText_statusBody (status data : String) :
    containsText (errorfStatusBody status data).Error status :=
  ⟨"status: ", " body: " ++ data, by simp [errorfStatusBody, GoError.Error, String.append_assoc]⟩


/-- C1. For each of the eight operations and every response of the executor
whose status code is not 200, the operation returns a non-nil error whose
message contains the status text, and the returned value (where there is one)
is the empty sequence or the zero-valued Folder. -/
theorem non200_error_and_zero_value {Req : Type} (c : Client Req) (resp : Response)
    (hne : resp.StatusCode ≠ 200) :
    ((c.Folders).answeredBy c resp →
      (c.Folders).value = [] ∧
        ∃ e, (c.Folders).err = some e ∧ containsText e.Error resp.Status) ∧
    (∀ id, (c.Folder id).answeredBy c resp →
      (c.Folder id).value = some Folder.zero ∧
        ∃ e, (c.Folder id).err = some e ∧ containsText e.Error resp.Status) ∧
    (∀ query, (c.SearchFolder query).answeredBy c resp →
      (c.SearchFolder query).value = [] ∧
        ∃ e, (c.SearchFolder query).err = some e ∧ containsText e.Error resp.Status) ∧
    (∀ uid, (c.FolderByUID uid).answeredBy c resp →
      (c.FolderByUID uid).value = some Folder.zero ∧
        ∃ e, (c.FolderByUID uid).err = some e ∧ containsText e.Error resp.Status) ∧
    (∀ title, (c.NewFolder title).answeredBy c resp →
      (c.NewFolder title).value = Folder.zero ∧
        ∃ e, (c.NewFolder title).err = some e ∧ containsText e.Error resp.Status) ∧
    (∀ title uid, (c.NewFolderWithUID title uid).answeredBy c resp →
      (c.NewFolderWithUID title uid).value = Folder.zero ∧
        ∃ e, (c.NewFolderWithUID title uid).err = some e ∧
          containsText e.Error resp.Status) ∧
    (∀ id name, (c.UpdateFolder id name).answeredBy c resp →
      ∃ e, (c.UpdateFolder id name).err = some e ∧ containsText e.Error resp.Status) ∧
    (∀ id, (c.DeleteFolder id).answeredBy c resp →
      ∃ e, (c.DeleteFolder id).err = some e ∧ containsText e.Error resp.Status) := by
  refine ⟨?_, ?_, ?_, ?_, ?_, ?_, ?_, ?_⟩
  · intro h
    rw [Folders_eq] at h ⊢
    obtain ⟨hv, he⟩ := roundTrip_answered _ _ _ _ _ h
    rw [hv, he]
    simp only [listOnResponse, hne, ne_eq, not_false_eq_true, ↓reduceIte, true_and]
    exact ⟨_, rfl, containsText_self _⟩
  · intro id h
    rw [Folder_eq] at h ⊢
    obtain ⟨hv, he⟩ := roundTrip_answered _ _ _ _ _ h
    rw [hv, he]
    simp only [getOnResponse, hne, ne_eq, not_false_eq_true, ↓reduceIte, true_and]
    exact ⟨_, rfl, containsText_self _⟩
  · intro query h
    rw [SearchFolder_eq] at h ⊢
    obtain ⟨hv, he⟩ := roundTrip_answered _ _ _ _ _ h
    rw [hv, he]
    simp only [listOnResponse, hne, ne_eq, not_false_eq_true, ↓reduceIte, true_and]
    exact ⟨_, rfl, containsText_self _⟩
  · intro uid h
    rw [FolderByUID_eq] at h ⊢
    obtain ⟨hv, he⟩ := roundTrip_answered _ _ _ _ _ h
    rw [hv, he]
    simp only [getOnResponse, hne, ne_eq, not_false_eq_true, ↓reduceIte, true_and]
    exact ⟨_, rfl, containsText_self _⟩
  · intro title h
    rw [NewFolder_eq] at h ⊢
    obtain ⟨hv, he⟩ := roundTrip_answered _ _ _ _ _ h
    rw [hv, he]
    simp only [createOnResponse, hne, ne_eq, not_false_eq_true, ↓reduceIte, true_and]
    exact ⟨_, rfl, containsText_statusBody _ _⟩
  · intro title uid h
    rw [NewFolderWithUID_eq] at h ⊢
    obtain ⟨hv, he⟩ := roundTrip_answered _ _ _ _ _ h
    rw [hv, he]
    simp only [createOnResponse, hne, ne_eq, not_false_eq_true, ↓reduceIte, true_and]
    exact ⟨_, rfl, containsText_statusBody _ _⟩
  · intro id name h
    rw [UpdateFolder_eq] at h ⊢
    obtain ⟨_, he⟩ := roundTrip_answered _ _ _ _ _ h
    rw [he]
    simp only [statusOnResponse, hne, ne_eq, not_false_eq_true, ↓reduceIte]
    exact ⟨_, rfl, containsText_self _⟩
  · intro id h
    rw [DeleteFolder_eq] at h ⊢
    obtain ⟨_, he⟩ := roundTrip_answered _ _ _ _ _ h
    rw [he]
    simp only [statusOnResponse, hne, ne_eq, not_false_eq_true, ↓reduceIte]
    exact ⟨_, rfl, containsText_self _⟩

/-- Witness of C1: a `404 Not Found` answer to `Folders`. -/
theorem non200_error_and_zero_value_witness :
    notFound.StatusCode ≠ 200 ∧
    ((cannedClient notFound).Folders).answeredBy (cannedClient notFound) notFound ∧
    (((cannedClient notFound).Folders).value = [] ∧
      ∃ e, ((cannedClient notFound).Folders).err = some e ∧
        containsText e.Error notFound.Status) :=
  ⟨by decide, ⟨⟨"GET", "/api/folders/", none, none⟩, by decide, rfl⟩,
    (non200_error_and_zero_value (cannedClient notFound) notFound (by decide)).1
      ⟨⟨"GET", "/api/folders/", none, none⟩, by decide, rfl⟩⟩


/-! ## Answers of the executor, operation by operation -/

theorem Folders_answered {Req : Type} (c : Client Req) (resp : Response)
    (h : (c.Folders).answeredBy c resp) :
    (c.Folders).value = (listOnResponse resp).1 ∧ (c.Folders).err = (listOnResponse resp).2 := by
  rw [Folders_eq] at h ⊢
  exact roundTrip_answered _ _ _ _ _ h

theorem Folder_answered {Req : Type} (c : Client Req) (id : Int) (resp : Response)
    (h : (c.Folder id).answeredBy c resp) :
    (c.Folder id).value = (getOnResponse resp).1 ∧
      (c.Folder id).err = (getOnResponse resp).2 := by
  rw [Folder_eq] at h ⊢
  exact roundTrip_answered _ _ _ _ _ h

theorem SearchFolder_answered {Req : Type} (c : Client Req) (query : String) (resp : Response)
    (h : (c.SearchFolder query).answeredBy c resp) :
    (c.SearchFolder query).value = (listOnResponse resp).1 ∧
      (c.SearchFolder query).err = (listOnResponse resp).2 := by
  rw [SearchFolder_eq] at h ⊢
  exact roundTrip_answered _ _ _ _ _ h

theorem FolderByUID_answered {Req : Type} (c : Client Req) (uid : String) (resp : Response)
    (h : (c.FolderByUID uid).answeredBy c resp) :
    (c.FolderByUID uid).value = (getOnResponse resp).1 ∧
      (c.FolderByUID uid).err = (getOnResponse resp).2 := by
  rw [FolderByUID_eq] at h ⊢
  exact roundTrip_answered _ _ _ _ _ h

theorem NewFolder_answered {Req : Type} (c : Client Req) (title : Bytes) (resp : Response)
    (h : (c.NewFolder title).answeredBy c resp) :
    (c.NewFolder title).value = (createOnResponse resp).1 ∧
      (c.NewFolder title).err = (createOnResponse resp).2 := by
  rw [NewFolder_eq] at h ⊢
  exact roundTrip_answered _ _ _ _ _ h

theorem NewFolderWithUID_answered {Req : Type} (c : Client Req) (title uid : Bytes)
    (resp : Response) (h : (c.NewFolderWithUID title uid).answeredBy c resp) :
    (c.NewFolderWithUID title uid).value = (createOnResponse resp).1 ∧
      (c.NewFolderWithUID title uid).err = (createOnResponse resp).2 := by
  rw [NewFolderWithUID_eq] at h ⊢
  exact roundTrip_answered _ _ _ _ _ h

theorem UpdateFolder_answered {Req : Type} (c : Client Req) (id : String) (name : Bytes)
    (resp : Response) (h : (c.UpdateFolder id name).answeredBy c resp) :
    (c.UpdateFolder id name).err = (statusOnResponse resp).2 := by
  rw [UpdateFolder_eq] at h ⊢
  exact (roundTrip_answered _ _ _ _ _ h).2

theorem DeleteFolder_answered {Req : Type} (c : Client Req) (id : String) (resp : Response)
    (h : (c.DeleteFolder id).answeredBy c resp) :
    (c.DeleteFolder id).err = (statusOnResponse resp).2 := by
  rw [DeleteFolder_eq] at h ⊢
  exact (roundTrip_answered _ _ _ _ _ h).2

theorem cannedClient_answers (resp : Response) (args : RequestArgs) :
    (roundTrip (cannedClient resp) args zero f).answeredBy (cannedClient resp) resp :=
  ⟨args, by simp [roundTrip, cannedClient, Outcome.sent], rfl⟩

/-- C2. For `NewFolder` and `NewFolderWithUID` and every response with a
status code other than 200, the error message is exactly
`"status: " ++ status ++ " body: " ++ body`, so it includes the raw body, and
the returned Folder is zero-valued. -/
theorem create_non200_error_embeds_body {Req : Type} (c : Client Req) (resp : Response)
    (hne : resp.StatusCode ≠ 200) :
    (∀ title, (c.NewFolder title).answeredBy c resp →
      (c.NewFolder title).value = Folder.zero ∧
        ∃ e, (c.NewFolder title).err = some e ∧
          e.Error = "status: " ++ resp.Status ++ " body: " ++ resp.Body.data ∧
          containsText e.Error resp.Body.data) ∧
    (∀ title uid, (c.NewFolderWithUID title uid).answeredBy c resp →
      (c.NewFolderWithUID title uid).value = Folder.zero ∧
        ∃ e, (c.NewFolderWithUID title uid).err = some e ∧
          e.Error = "status: " ++ resp.Status ++ " body: " ++ resp.Body.data ∧
          containsText e.Error resp.Body.data) := by
  have hbody : containsText ("status: " ++ resp.Status ++ " body: " ++ resp.Body.data)
      resp.Body.data := ⟨"status: " ++ resp.Status ++ " body: ", "", by simp⟩
  constructor
  · intro title h
    obtain ⟨hv, he⟩ := NewFolder_answered c title resp h
    rw [hv, he]
    simp only [createOnResponse, hne, ne_eq, not_false_eq_true, ↓reduceIte, true_and]
    exact ⟨_, rfl, rfl, hbody⟩
  · intro title uid h
    obtain ⟨hv, he⟩ := NewFolderWithUID_answered c title uid resp h
    rw [hv, he]
    simp only [createOnResponse, hne, ne_eq, not_false_eq_true, ↓reduceIte, true_and]
    exact ⟨_, rfl, rfl, hbody⟩

/-- Witness of C2: a `422` answer to `NewFolder("")`. -/
theorem create_non200_error_embeds_body_witness :
    unprocessable.StatusCode ≠ 200 ∧
    ((cannedClient unprocessable).NewFolder []).answeredBy (cannedClient unprocessable)
      unprocessable ∧
    ((cannedClient unprocessable).NewFolder []).value = Folder.zero ∧
    ∃ e, ((cannedClient unprocessable).NewFolder []).err = some e ∧
      e.Error = "status: 422 Unprocessable Entity body: " ++
        "\x7b\"message\":\"title cannot be empty\"\x7d" ∧
      containsText e.Error "\x7b\"message\":\"title cannot be empty\"\x7d" :=
  ⟨by decide, by rw [NewFolder_eq]; exact cannedClient_answers _ _,
    (create_non200_error_embeds_body (cannedClient unprocessable) unprocessable (by decide)).1 []
      (by rw [NewFolder_eq]; exact cannedClient_answers _ _)⟩

/-- C8. `DeleteFolder(id)` issues a DELETE to `"/api/folders/" ++ id`, and for
every response with a status code other than 200 the text of the returned
error equals the status text of the response, whatever the body; the same
equality holds for `UpdateFolder`. -/
theorem delete_update_error_is_status {Req : Type} (c : Client Req) (id : String) (name : Bytes)
    (resp : Response) (hne : resp.StatusCode ≠ 200) :
    (c.DeleteFolder id).built = [⟨"DELETE", "/api/folders/" ++ id, none, none⟩] ∧
    ((c.DeleteFolder id).answeredBy c resp →
      ∃ e, (c.DeleteFolder id).err = some e ∧ e.Error = resp.Status) ∧
    ((c.UpdateFolder id name).answeredBy c resp →
      ∃ e, (c.UpdateFolder id name).err = some e ∧ e.Error = resp.Status) := by
  refine ⟨?_, ?_, ?_⟩
  · rw [DeleteFolder_eq]; exact roundTrip_built _ _ _ _
  · intro h
    rw [DeleteFolder_answered c id resp h]
    simp only [statusOnResponse, hne, ne_eq, not_false_eq_true, ↓reduceIte]
    exact ⟨_, rfl, rfl⟩
  · intro h
    rw [UpdateFolder_answered c id name resp h]
    simp only [statusOnResponse, hne, ne_eq, not_false_eq_true, ↓reduceIte]
    exact ⟨_, rfl, rfl⟩

/-- Witness of C8: `DeleteFolder("zzz")` answered with `404 Not Found`. -/
theorem delete_update_error_is_status_witness :
    notFound.StatusCode ≠ 200 ∧
    ((cannedClient notFound).DeleteFolder "zzz").answeredBy (cannedClient notFound) notFound ∧
    ((cannedClient notFound).DeleteFolder "zzz").built =
      [⟨"DELETE", "/api/folders/zzz", none, none⟩] ∧
    ∃ e, ((cannedClient notFound).DeleteFolder "zzz").err = some e ∧
      e.Error = "404 Not Found" :=
  ⟨by decide, by rw [DeleteFolder_eq]; exact cannedClient_answers _ _,
    (delete_update_error_is_status (cannedClient notFound) "zzz" [] notFound (by decide)).1,
    (delete_update_error_is_status (cannedClient notFound) "zzz" [] notFound (by decide)).2.1
      (by rw [DeleteFolder_eq]; exact cannedClient_answers _ _)⟩

/-- C9. For each of the eight operations, when building the request fails
with error `e` the operation returns exactly `e` next to the empty sequence
or zero-valued Folder and never calls the executor; when the executor fails
with `e` the operation returns exactly `e` next to the empty sequence or
zero-valued Folder and has called the executor exactly once. -/
theorem transport_error_propagates {Req : Type} (c : Client Req) (e : GoError) :
    (((c.Folders).buildFailedWith c e →
        (c.Folders).value = [] ∧ (c.Folders).err = some e ∧ (c.Folders).sent = []) ∧
      ((c.Folders).sendFailedWith c e →
        (c.Folders).value = [] ∧ (c.Folders).err = some e ∧ (c.Folders).sent.length = 1)) ∧
    (∀ id, ((c.Folder id).buildFailedWith c e →
        (c.Folder id).value = some Folder.zero ∧ (c.Folder id).err = some e ∧
          (c.Folder id).sent = []) ∧
      ((c.Folder id).sendFailedWith c e →
        (c.Folder id).value = some Folder.zero ∧ (c.Folder id).err = some e ∧
          (c.Folder id).sent.length = 1)) ∧
    (∀ query, ((c.SearchFolder query).buildFailedWith c e →
        (c.SearchFolder query).value = [] ∧ (c.SearchFolder query).err = some e ∧
          (c.SearchFolder query).sent = []) ∧
      ((c.SearchFolder query).sendFailedWith c e →
        (c.SearchFolder query).value = [] ∧ (c.SearchFolder query).err = some e ∧
          (c.SearchFolder query).sent.length = 1)) ∧
    (∀ uid, ((c.FolderByUID uid).buildFailedWith c e →
        (c.FolderByUID uid).value = some Folder.zero ∧ (c.FolderByUID uid).err = some e ∧
          (c.FolderByUID uid).sent = []) ∧
      ((c.FolderByUID uid).sendFailedWith c e →
        (c.FolderByUID uid).value = some Folder.zero ∧ (c.FolderByUID uid).err = some e ∧
          (c.FolderByUID uid).sent.length = 1)) ∧
    (∀ title, ((c.NewFolder title).buildFailedWith c e →
        (c.NewFolder title).value = Folder.zero ∧ (c.NewFolder title).err = some e ∧
          (c.NewFolder title).sent = []) ∧
      ((c.NewFolder title).sendFailedWith c e →
        (c.NewFolder title).value = Folder.zero ∧ (c.NewFolder title).err = some e ∧
          (c.NewFolder title).sent.length = 1)) ∧
    (∀ title uid, ((c.NewFolderWithUID title uid).buildFailedWith c e →
        (c.NewFolderWithUID title uid).value = Folder.zero ∧
          (c.NewFolderWithUID title uid).err = some e ∧
          (c.NewFolderWithUID title uid).sent = []) ∧
      ((c.NewFolderWithUID title uid).sendFailedWith c e →
        (c.NewFolderWithUID title uid).value = Folder.zero ∧
          (c.NewFolderWithUID title uid).err = some e ∧
          (c.NewFolderWithUID title uid).sent.length = 1)) ∧
    (∀ id name, ((c.UpdateFolder id name).buildFailedWith c e →
        (c.UpdateFolder id name).err = some e ∧ (c.UpdateFolder id name).sent = []) ∧
      ((c.UpdateFolder id name).sendFailedWith c e →
        (c.UpdateFolder id name).err = some e ∧ (c.UpdateFolder id name).sent.length = 1)) ∧
    (∀ id, ((c.DeleteFolder id).buildFailedWith c e →
        (c.DeleteFolder id).err = some e ∧ (c.DeleteFolder id).sent = []) ∧
      ((c.DeleteFolder id).sendFailedWith c e →
        (c.DeleteFolder id).err = some e ∧ (c.DeleteFolder id).sent.length = 1)) := by
  refine ⟨⟨?_, ?_⟩, fun id => ⟨?_, ?_⟩, fun query => ⟨?_, ?_⟩, fun uid => ⟨?_, ?_⟩,
    fun title => ⟨?_, ?_⟩, fun title uid => ⟨?_, ?_⟩, fun id name => ⟨?_, ?_⟩,
    fun id => ⟨?_, ?_⟩⟩
  · intro h; rw [Folders_eq] at h ⊢; exact roundTrip_buildFailed _ _ _ _ _ h
  · intro h; rw [Folders_eq] at h ⊢; exact roundTrip_sendFailed _ _ _ _ _ h
  · intro h; rw [Folder_eq] at h ⊢; exact roundTrip_buildFailed _ _ _ _ _ h
  · intro h; rw [Folder_eq] at h ⊢; exact roundTrip_sendFailed _ _ _ _ _ h
  · intro h; rw [SearchFolder_eq] at h ⊢; exact roundTrip_buildFailed _ _ _ _ _ h
  · intro h; rw [SearchFolder_eq] at h ⊢; exact roundTrip_sendFailed _ _ _ _ _ h
  · intro h; rw [FolderByUID_eq] at h ⊢; exact roundTrip_buildFailed _ _ _ _ _ h
  · intro h; rw [FolderByUID_eq] at h ⊢; exact roundTrip_sendFailed _ _ _ _ _ h
  · intro h; rw [NewFolder_eq] at h ⊢; exact roundTrip_buildFailed _ _ _ _ _ h
  · intro h; rw [NewFolder_eq] at h ⊢; exact roundTrip_sendFailed _ _ _ _ _ h
  · intro h; rw [NewFolderWithUID_eq] at h ⊢; exact roundTrip_buildFailed _ _ _ _ _ h
  · intro h; rw [NewFolderWithUID_eq] at h ⊢; exact roundTrip_sendFailed _ _ _ _ _ h
  · intro h; rw [UpdateFolder_eq] at h ⊢; exact (roundTrip_buildFailed _ _ _ _ _ h).2
  · intro h; rw [UpdateFolder_eq] at h ⊢; exact (roundTrip_sendFailed _ _ _ _ _ h).2
  · intro h; rw [DeleteFolder_eq] at h ⊢; exact (roundTrip_buildFailed _ _ _ _ _ h).2
  · intro h; rw [DeleteFolder_eq] at h ⊢; exact (roundTrip_sendFailed _ _ _ _ _ h).2

/-- Witness of C9: a refused connection during `NewFolder("Ops")`, and a
request for `Folders` that cannot be built. -/
theorem transport_error_propagates_witness :
    (((unreachableClient (GoError.external "connection refused")).NewFolder (utf8 "Ops")).sendFailedWith
        (unreachableClient (GoError.external "connection refused"))
        (GoError.external "connection refused") ∧
      ((unreachableClient (GoError.external "connection refused")).NewFolder (utf8 "Ops")).value =
        Folder.zero ∧
      ((unreachableClient (GoError.external "connection refused")).NewFolder (utf8 "Ops")).err =
        some (GoError.external "connection refused") ∧
      ((unreachableClient (GoError.external "connection refused")).NewFolder (utf8 "Ops")).sent.length
        = 1) ∧
    (((brokenClient (GoError.external "missing protocol scheme")).Folders).buildFailedWith
        (brokenClient (GoError.external "missing protocol scheme"))
        (GoError.external "missing protocol scheme") ∧
      ((brokenClient (GoError.external "missing protocol scheme")).Folders).value = [] ∧
      ((brokenClient (GoError.external "missing protocol scheme")).Folders).err =
        some (GoError.external "missing protocol scheme") ∧
      ((brokenClient (GoError.external "missing protocol scheme")).Folders).sent = []) :=
  ⟨⟨⟨⟨"POST", "/api/folders", none, some "\x7b\"title\":\"Ops\"\x7d"⟩, by decide, rfl⟩,
      ((transport_error_propagates (unreachableClient (GoError.external "connection refused"))
        (GoError.external "connection refused")).2.2.2.2.1 (utf8 "Ops")).2
        ⟨⟨"POST", "/api/folders", none, some "\x7b\"title\":\"Ops\"\x7d"⟩, by decide, rfl⟩⟩,
    ⟨⟨⟨"GET", "/api/folders/", none, none⟩, by decide, rfl⟩,
      (transport_error_propagates (brokenClient (GoError.external "missing protocol scheme"))
        (GoError.external "missing protocol scheme")).1.1
        ⟨⟨"GET", "/api/folders/", none, none⟩, by decide, rfl⟩⟩⟩

/-! ## Decimal numbers: `%d` and `strconv.ParseInt` agree -/

theorem digit_char (d : Nat) (h : d < 10) :
    isDigit (Char.ofNat (48 + d)) = true ∧ (Char.ofNat (48 + d)).toNat - 48 = d := by
  interval_cases d <;> exact ⟨by decide, by decide⟩

theorem formatNatAux_append (fuel : Nat) : ∀ (n : Nat) (acc : List Char),
    formatNatAux fuel n acc = formatNatAux fuel n [] ++ acc := by
  induction fuel with
  | zero => intro n acc; simp [formatNatAux]
  | succ fuel ih =>
    intro n acc
    simp only [formatNatAux]
    split
    · simp
    · rw [ih (n / 10) (_ :: acc), ih (n / 10) [_]]
      simp

theorem digitsValue_append (xs ys : List Char) : ∀ a : Nat,
    digitsValue (xs ++ ys) a = (digitsValue xs a).bind (digitsValue ys) := by
  induction xs with
  | nil => intro a; simp [digitsValue]
  | cons x xs ih =>
    intro a
    simp only [List.cons_append, digitsValue]
    split
    · exact ih _
    · rfl

theorem digitsValue_formatNatAux (fuel : Nat) : ∀ n : Nat, n < fuel →
    digitsValue (formatNatAux fuel n []) 0 = some n := by
  induction fuel with
  | zero => intro n h; omega
  | succ fuel ih =>
    intro n h
    simp only [formatNatAux]
    split
    · rename_i hlt
      obtain ⟨h1, h2⟩ := digit_char n hlt
      simp [digitsValue, h1, h2]
    · rename_i hge
      have hmod : n % 10 < 10 := Nat.mod_lt _ (by decide)
      obtain ⟨h1, h2⟩ := digit_char (n % 10) hmod
      rw [formatNatAux_append, digitsValue_append, ih (n / 10) (by omega)]
      simp only [Option.some_bind, digitsValue, h1, h2, if_true]
      congr 1
      omega

theorem digitsValue_formatNat (n : Nat) : digitsValue (formatNat n) 0 = some n :=
  digitsValue_formatNatAux (n + 1) n (Nat.lt_succ_self n)

theorem formatNat_cons (n : Nat) :
    ∃ c rest, formatNat n = c :: rest ∧ isDigit c = true := by
  have h := digitsValue_formatNat n
  cases hf : formatNat n with
  | nil =>
    have hz : formatNatAux (n + 1) n [] = [] := hf
    simp only [formatNatAux] at hz
    split at hz
    · simp at hz
    · rw [formatNatAux_append] at hz
      simp at hz
  | cons c rest =>
    refine ⟨c, rest, rfl, ?_⟩
    rw [hf] at h
    simp only [digitsValue] at h
    split at h
    · assumption
    · simp at h

theorem parseInt64_formatInt (i : Int) (h : inInt64 i) : parseInt64 (formatInt i) = some i := by
  obtain ⟨hlo, hhi⟩ := h
  cases i with
  | ofNat n =>
    obtain ⟨c, rest, hf, hd⟩ := formatNat_cons n
    have hv := digitsValue_formatNat n
    have hminus : c ≠ '-' := by
      intro hc; rw [hc] at hd; exact absurd hd (by decide)
    have hplus : c ≠ '+' := by
      intro hc; rw [hc] at hd; exact absurd hd (by decide)
    have hn : n < 2 ^ 63 := by
      have : ((n : Nat) : Int) < 2 ^ 63 := hhi
      exact_mod_cast this
    simp only [formatInt]
    rw [hf] at hv ⊢
    simp only [parseInt64, hminus, hplus, if_false, hv, hn, if_true]
    rfl
  | negSucc n =>
    obtain ⟨c, rest, hf, _⟩ := formatNat_cons (n + 1)
    have hv := digitsValue_formatNat (n + 1)
    have hn : n + 1 ≤ 2 ^ 63 := by
      have : -(2 ^ 63 : Int) ≤ Int.negSucc n := hlo
      rw [Int.negSucc_eq] at this
      have h2 : ((n : Int) + 1) ≤ 2 ^ 63 := by linarith
      exact_mod_cast h2
    simp only [formatInt, parseInt64, if_true]
    rw [hf] at hv ⊢
    simp only [hv, hn, if_true]
    rfl

/-! ## `%d` is the usual decimal notation -/

theorem digit_eq_digitChar (d : Nat) (h : d < 10) : Char.ofNat (48 + d) = Nat.digitChar d := by
  interval_cases d <;> rfl

theorem formatNatAux_eq_toDigitsCore (fuel : Nat) : ∀ (n : Nat) (acc : List Char),
    formatNatAux fuel n acc = Nat.toDigitsCore 10 fuel n acc := by
  induction fuel with
  | zero => intro n acc; rfl
  | succ fuel ih =>
    intro n acc
    simp only [formatNatAux, Nat.toDigitsCore]
    have hmod : n % 10 < 10 := Nat.mod_lt _ (by decide)
    by_cases hlt : n < 10
    · have hdiv : n / 10 = 0 := by omega
      have hm : n % 10 = n := by omega
      simp only [hlt, if_true, hdiv]
      rw [hm, digit_eq_digitChar n hlt]
    · have hdiv : ¬ n / 10 = 0 := by omega
      simp only [hlt, if_false, hdiv]
      rw [digit_eq_digitChar _ hmod, ih]

/-- The text `%d` produces is the decimal notation of the number. -/
theorem formatInt_eq_toString (i : Int) : String.mk (formatInt i) = toString i := by
  cases i with
  | ofNat n =>
    simp only [formatInt, formatNat, formatNatAux_eq_toDigitsCore]
    rfl
  | negSucc n =>
    simp only [formatInt, formatNat, formatNatAux_eq_toDigitsCore]
    rfl

/-! ## Decoding well-formed folders -/

theorem fieldMatches_id (key : String) (h : fieldMatches key "id" = true) :
    fieldMatches key "uid" = false ∧ fieldMatches key "title" = false := by
  have hid : ("id" : String).data.map asciiUpper = ['I', 'D'] := by decide
  have huid : ("uid" : String).data.map asciiUpper = ['U', 'I', 'D'] := by decide
  have htitle : ("title" : String).data.map asciiUpper = ['T', 'I', 'T', 'L', 'E'] := by decide
  simp only [fieldMatches, decide_eq_true_eq, decide_eq_false_iff_not, hid, huid, htitle] at h ⊢
  rw [h]
  exact ⟨by decide, by decide⟩

theorem fieldMatches_uid (key : String) (h : fieldMatches key "uid" = true) :
    fieldMatches key "id" = false ∧ fieldMatches key "title" = false := by
  have hid : ("id" : String).data.map asciiUpper = ['I', 'D'] := by decide
  have huid : ("uid" : String).data.map asciiUpper = ['U', 'I', 'D'] := by decide
  have htitle : ("title" : String).data.map asciiUpper = ['T', 'I', 'T', 'L', 'E'] := by decide
  simp only [fieldMatches, decide_eq_true_eq, decide_eq_false_iff_not, hid, huid, htitle] at h ⊢
  rw [h]
  exact ⟨by decide, by decide⟩

theorem fieldMatches_title (key : String) (h : fieldMatches key "title" = true) :
    fieldMatches key "id" = false ∧ fieldMatches key "uid" = false := by
  have hid : ("id" : String).data.map asciiUpper = ['I', 'D'] := by decide
  have huid : ("uid" : String).data.map asciiUpper = ['U', 'I', 'D'] := by decide
  have htitle : ("title" : String).data.map asciiUpper = ['T', 'I', 'T', 'L', 'E'] := by decide
  simp only [fieldMatches, decide_eq_true_eq, decide_eq_false_iff_not, hid, huid, htitle] at h ⊢
  rw [h]
  exact ⟨by decide, by decide⟩

/-- One member that agrees with `f`: the error stays nil and the field the
member names, if any, takes the value of `f`. -/
theorem setField_carries (f : Folder) (st : Folder × Option GoError) (kv : String × JSON)
    (hst : st.2 = none) (hkv : memberCarries f kv = true) :
    (setField st kv).2 = none ∧
    (setField st kv).1.Id = (if fieldMatches kv.1 "id" then f.Id else st.1.Id) ∧
    (setField st kv).1.Uid = (if fieldMatches kv.1 "uid" then f.Uid else st.1.Uid) ∧
    (setField st kv).1.Title = (if fieldMatches kv.1 "title" then f.Title else st.1.Title) := by
  obtain ⟨key, v⟩ := kv
  unfold memberCarries at hkv
  unfold setField
  by_cases h1 : fieldMatches key "id" = true
  · obtain ⟨h2, h3⟩ := fieldMatches_id key h1
    simp only [h1, if_true] at hkv
    cases v with
    | num lit =>
      simp only [decide_eq_true_eq] at hkv
      simp [h1, h2, h3, storeInt64, hkv, saveError, hst]
    | _ => simp at hkv
  · simp only [h1, if_false, Bool.false_eq_true] at hkv
    by_cases h2 : fieldMatches key "uid" = true
    · obtain ⟨_, h3⟩ := fieldMatches_uid key h2
      simp only [h2, if_true] at hkv
      cases v with
      | str s =>
        simp only [decide_eq_true_eq] at hkv
        simp [h1, h2, h3, storeString, hkv, saveError, hst]
      | _ => simp at hkv
    · simp only [h2, if_false, Bool.false_eq_true] at hkv
      by_cases h3 : fieldMatches key "title" = true
      · simp only [h3, if_true] at hkv
        cases v with
        | str s =>
          simp only [decide_eq_true_eq] at hkv
          simp [h1, h2, h3, storeString, hkv, saveError, hst]
        | _ => simp at hkv
      · simp [h1, h2, h3, hst]

theorem foldl_setField_carries (f : Folder) (members : List (String × JSON)) :
    ∀ st : Folder × Option GoError, st.2 = none → members.all (memberCarries f) = true →
    (members.foldl setField st).2 = none ∧
    (members.foldl setField st).1.Id =
      (if members.any (fun kv => fieldMatches kv.1 "id") then f.Id else st.1.Id) ∧
    (members.foldl setField st).1.Uid =
      (if members.any (fun kv => fieldMatches kv.1 "uid") then f.Uid else st.1.Uid) ∧
    (members.foldl setField st).1.Title =
      (if members.any (fun kv => fieldMatches kv.1 "title") then f.Title else st.1.Title) := by
  induction members with
  | nil => intro st hst _; simp [hst]
  | cons kv rest ih =>
    intro st hst hall
    simp only [List.all_cons, Bool.and_eq_true] at hall
    obtain ⟨h0, h1, h2, h3⟩ := setField_carries f st kv hst hall.1
    obtain ⟨g0, g1, g2, g3⟩ := ih (setField st kv) h0 hall.2
    simp only [List.foldl_cons, List.any_cons, Bool.or_eq_true]
    refine ⟨g0, ?_, ?_, ?_⟩
    · rw [g1, h1]
      by_cases hA : fieldMatches kv.1 "id" = true <;>
        by_cases hB : (rest.any fun kv => fieldMatches kv.1 "id") = true <;>
        simp [hA, hB]
    · rw [g2, h2]
      by_cases hA : fieldMatches kv.1 "uid" = true <;>
        by_cases hB : (rest.any fun kv => fieldMatches kv.1 "uid") = true <;>
        simp [hA, hB]
    · rw [g3, h3]
      by_cases hA : fieldMatches kv.1 "title" = true <;>
        by_cases hB : (rest.any fun kv => fieldMatches kv.1 "title") = true <;>
        simp [hA, hB]

/-- A folder object for `f` decodes to `f` without an error, whatever the
struct held before. -/
theorem decodeFolder_isFolderObject (f cur : Folder) (v : JSON)
    (h : isFolderObject f v = true) : decodeFolder v cur none = (f, none) := by
  cases v with
  | obj members =>
    simp only [isFolderObject, Bool.and_eq_true] at h
    obtain ⟨hall, hid, huid, htitle⟩ := h
    obtain ⟨g0, g1, g2, g3⟩ := foldl_setField_carries f members (cur, none) rfl hall
    simp only [hid, huid, htitle, if_true] at g1 g2 g3
    simp only [decodeFolder]
    generalize members.foldl setField (cur, none) = r at g0 g1 g2 g3
    obtain ⟨⟨a, b, c⟩, e⟩ := r
    simp only at g0 g1 g2 g3
    subst g0 g1 g2 g3
    rfl
  | _ => simp [isFolderObject] at h

theorem decodeElems_areFolderObjects : ∀ (elems : List JSON) (fs : List Folder),
    areFolderObjects elems fs = true → decodeElems elems none = (fs, none)
  | [], [], _ => rfl
  | [], _ :: _, h => by simp [areFolderObjects] at h
  | _ :: _, [], h => by simp [areFolderObjects] at h
  | v :: vs, f :: fs, h => by
    simp only [areFolderObjects, Bool.and_eq_true] at h
    simp only [decodeElems, decodeFolder_isFolderObject f Folder.zero v h.1,
      decodeElems_areFolderObjects vs fs h.2, List.cons]

/-- The object `{"id":i,"uid":u,"title":t}` with `i` in decimal is a folder
object for `Folder{i, u, t}`, for every `int64` value `i`. -/
theorem isFolderObject_folderJSON (f : Folder) (h : inInt64 f.Id) :
    isFolderObject f (folderJSON f) = true := by
  have hid : fieldMatches "id" "id" = true := by decide
  have huid1 : fieldMatches "uid" "id" = false := by decide
  have huid2 : fieldMatches "uid" "uid" = true := by decide
  have ht1 : fieldMatches "title" "id" = false := by decide
  have ht2 : fieldMatches "title" "uid" = false := by decide
  have ht3 : fieldMatches "title" "title" = true := by decide
  simp [isFolderObject, folderJSON, memberCarries, hid, huid1, huid2, ht1, ht2, ht3,
    parseInt64_formatInt f.Id h]

/-- C4. For `Folders()` and `SearchFolder(query)`, for every status-200
response whose body is a valid JSON array of folder objects (valid for
`json.Unmarshal`, hence nested no deeper than its limit), the operation
returns a nil error and the sequence of the folders the array lists: same
length, same order, the same `id`, `uid` and `title` (the empty array gives
the empty sequence). -/
theorem list_ok_matches_json {Req : Type} (c : Client Req) (query : String) (resp : Response)
    (elems : List JSON) (fs : List Folder) (hstatus : resp.StatusCode = 200)
    (hread : resp.Body.err = none) (hbody : parseJSON resp.Body.data = some (JSON.arr elems))
    (helems : areFolderObjects elems fs = true) :
    ((c.Folders).answeredBy c resp → (c.Folders).value = fs ∧ (c.Folders).err = none) ∧
    ((c.SearchFolder query).answeredBy c resp →
      (c.SearchFolder query).value = fs ∧ (c.SearchFolder query).err = none) := by
  have hlist : listOnResponse resp = (fs, none) := by
    simp [listOnResponse, hstatus, ReadAll, hread, unmarshalFolders, hbody, decodeFolders,
      decodeElems_areFolderObjects elems fs helems]
  constructor
  · intro h
    obtain ⟨hv, he⟩ := Folders_answered c resp h
    rw [hv, he, hlist]
    exact ⟨rfl, rfl⟩
  · intro h
    obtain ⟨hv, he⟩ := SearchFolder_answered c query resp h
    rw [hv, he, hlist]
    exact ⟨rfl, rfl⟩

/-- Witness of C4: a two-element array with whitespace, an escape, a negative
id, an extra member and members out of order; and the empty array. -/
theorem list_ok_matches_json_witness :
    (parseJSON twoFoldersBody = some (JSON.arr twoFoldersElems) ∧
      areFolderObjects twoFoldersElems [⟨1, "a", "A&B"⟩, ⟨-2, "b", ""⟩] = true ∧
      ((cannedClient (okResponse twoFoldersBody)).Folders).value
        = [⟨1, "a", "A&B"⟩, ⟨-2, "b", ""⟩] ∧
      ((cannedClient (okResponse twoFoldersBody)).Folders).err = none) ∧
    (((cannedClient (okResponse "[]")).SearchFolder "ops").value = [] ∧
      ((cannedClient (okResponse "[]")).SearchFolder "ops").err = none) :=
  ⟨⟨by rfl, by decide,
      (list_ok_matches_json (cannedClient (okResponse twoFoldersBody)) ""
        (okResponse twoFoldersBody) twoFoldersElems [⟨1, "a", "A&B"⟩, ⟨-2, "b", ""⟩] rfl rfl
        (by rfl) (by decide)).1 (by rw [Folders_eq]; exact cannedClient_answers _ _)⟩,
    (list_ok_matches_json (cannedClient (okResponse "[]")) "ops" (okResponse "[]") [] [] rfl
      rfl (by rfl) (by decide)).2
      (by rw [SearchFolder_eq]; exact cannedClient_answers _ _)⟩

/-- C5. For every 64-bit integer `id`, `Folder(id)` builds exactly one
request, a GET whose path is `/api/folders/id/` followed by the decimal
notation of `id` (the text `strconv.ParseInt` reads back as `id`), with no
query and no body, and once the request is built passes it, and nothing
else, to the executor; and when the response has status 200 and its body is
valid JSON (within the decoder's nesting limit), an object giving `"id":i`,
`"uid":u` and `"title":t`, it returns `Folder{i, u, t}` with a nil error. -/
theorem folder_by_id_request_and_result {Req : Type} (c : Client Req) (id : Int)
    (hid : inInt64 id) (resp : Response) (v : JSON) (f : Folder)
    (hstatus : resp.StatusCode = 200) (hread : resp.Body.err = none)
    (hbody : parseJSON resp.Body.data = some v) (hobj : isFolderObject f v = true) :
    (c.Folder id).built = [⟨"GET", "/api/folders/id/" ++ toString id, none, none⟩] ∧
    (∀ req, c.newRequest ⟨"GET", "/api/folders/id/" ++ toString id, none, none⟩ =
      Except.ok req → (c.Folder id).sent = [req]) ∧
    parseInt64 (toString id).data = some id ∧
    ((c.Folder id).answeredBy c resp →
      (c.Folder id).value = some f ∧ (c.Folder id).err = none) := by
  refine ⟨?_, ?_, ?_, ?_⟩
  · rw [Folder_eq, roundTrip_built, formatInt_eq_toString]
  · intro req hreq
    rw [Folder_eq, formatInt_eq_toString]
    exact roundTrip_sent_of_built _ _ _ _ req hreq
  · rw [← formatInt_eq_toString]
    exact parseInt64_formatInt id hid
  · intro h
    obtain ⟨hv, he⟩ := Folder_answered c id resp h
    have hdec := decodeFolder_isFolderObject f Folder.zero v hobj
    have hget : getOnResponse resp = (some f, none) := by
      cases v with
      | null => simp [isFolderObject] at hobj
      | _ => simp [getOnResponse, hstatus, ReadAll, hread, unmarshalFolderPtr, hbody, hdec]
    rw [hv, he, hget]
    exact ⟨rfl, rfl⟩

/-- Witness of C5: `Folder(5)` answered with
`{"id":5,"uid":"abc123","title":"Infra"}`. -/
theorem folder_by_id_request_and_result_witness :
    inInt64 5 ∧
    parseJSON infraBody = some (folderJSON ⟨5, "abc123", "Infra"⟩) ∧
    ((cannedClient (okResponse infraBody)).Folder 5).built =
      [⟨"GET", "/api/folders/id/5", none, none⟩] ∧
    ((cannedClient (okResponse infraBody)).Folder 5).sent =
      [⟨"GET", "/api/folders/id/5", none, none⟩] ∧
    ((cannedClient (okResponse infraBody)).Folder 5).value = some ⟨5, "abc123", "Infra"⟩ ∧
    ((cannedClient (okResponse infraBody)).Folder 5).err = none :=
  ⟨⟨by decide, by decide⟩, by rfl,
    (folder_by_id_request_and_result (cannedClient (okResponse infraBody)) 5
      ⟨by decide, by decide⟩ (okResponse infraBody) (folderJSON ⟨5, "abc123", "Infra"⟩)
      ⟨5, "abc123", "Infra"⟩ rfl rfl (by rfl) (by decide)).1,
    (folder_by_id_request_and_result (cannedClient (okResponse infraBody)) 5
      ⟨by decide, by decide⟩ (okResponse infraBody) (folderJSON ⟨5, "abc123", "Infra"⟩)
      ⟨5, "abc123", "Infra"⟩ rfl rfl (by rfl) (by decide)).2.1 _ rfl,
    (folder_by_id_request_and_result (cannedClient (okResponse infraBody)) 5
      ⟨by decide, by decide⟩ (okResponse infraBody) (folderJSON ⟨5, "abc123", "Infra"⟩)
      ⟨5, "abc123", "Infra"⟩ rfl rfl (by rfl) (by decide)).2.2.2
      (by rw [Folder_eq]; exact cannedClient_answers _ _)⟩

/-- C10, evaluated at the failing input: on a status-200 response whose body
is the JSON literal `null`, `Folder(5)` and `FolderByUID("abc123")` both
return a nil pointer together with a nil error. -/
theorem null_body_yields_nil_folder_and_nil_error :
    ((cannedClient (okResponse "null")).Folder 5).answeredBy
      (cannedClient (okResponse "null")) (okResponse "null") ∧
    ((cannedClient (okResponse "null")).Folder 5).value = none ∧
    ((cannedClient (okResponse "null")).Folder 5).err = none ∧
    ((cannedClient (okResponse "null")).FolderByUID "abc123").value = none ∧
    ((cannedClient (okResponse "null")).FolderByUID "abc123").err = none :=
  ⟨by rw [Folder_eq]; exact cannedClient_answers _ _, by decide, by decide, by decide,
    by decide⟩

/-- The nil pointer of C10 arises on the literal `null` only: whenever
`Folder(id)` hands back a nil pointer, the response had status 200 and a
readable body that is the JSON value `null`. -/
theorem folder_nil_only_on_null {Req : Type} (c : Client Req) (id : Int) (resp : Response)
    (h : (c.Folder id).answeredBy c resp) (hnil : (c.Folder id).value = none) :
    resp.StatusCode = 200 ∧ resp.Body.err = none ∧
      parseJSON resp.Body.data = some JSON.null := by
  obtain ⟨hv, _⟩ := Folder_answered c id resp h
  rw [hv] at hnil
  unfold getOnResponse at hnil
  by_cases hs : resp.StatusCode = 200
  · refine ⟨hs, ?_⟩
    simp only [hs, ne_eq, not_true_eq_false, if_false, ReadAll] at hnil
    cases hr : resp.Body.err with
    | some e => simp [hr] at hnil
    | none =>
      refine ⟨rfl, ?_⟩
      simp only [hr, unmarshalFolderPtr] at hnil
      cases hp : parseJSON resp.Body.data with
      | none => simp [hp] at hnil
      | some v =>
        cases v with
        | null => rfl
        | _ => simp [hp] at hnil
  · simp [hs] at hnil

/-! ## Decoding values of the wrong shape -/

theorem storeInt64_err (v : JSON) (cur : Int) :
    (storeInt64 v cur).2 = none ↔ fitsInt64 v = true := by
  cases v with
  | num lit =>
    simp only [storeInt64, fitsInt64]
    cases parseInt64 lit <;> simp
  | _ => simp [storeInt64, fitsInt64]

theorem storeString_err (v : JSON) (cur : String) :
    (storeString v cur).2 = none ↔ fitsString v = true := by
  cases v <;> simp [storeString, fitsString]

theorem saveError_none (saved err : Option GoError) :
    saveError saved err = none ↔ saved = none ∧ err = none := by
  cases saved <;> simp [saveError]

theorem setField_err (st : Folder × Option GoError) (kv : String × JSON) :
    (setField st kv).2 = none ↔ st.2 = none ∧ memberFits kv = true := by
  unfold setField memberFits
  split
  · simp [saveError_none, storeInt64_err]
  · split
    · simp [saveError_none, storeString_err]
    · split
      · simp [saveError_none, storeString_err]
      · simp

theorem foldl_setField_err (members : List (String × JSON)) :
    ∀ st : Folder × Option GoError,
      (members.foldl setField st).2 = none ↔ st.2 = none ∧ members.all memberFits = true := by
  induction members with
  | nil => intro st; simp
  | cons kv rest ih =>
    intro st
    simp only [List.foldl_cons, ih, setField_err, List.all_cons, Bool.and_eq_true]
    tauto

theorem decodeFolder_err (v : JSON) (cur : Folder) (saved : Option GoError) :
    (decodeFolder v cur saved).2 = none ↔ saved = none ∧ fitsFolder v = true := by
  cases v with
  | obj members => simp [decodeFolder, fitsFolder, foldl_setField_err]
  | _ => simp [decodeFolder, fitsFolder, saveError_none]

theorem decodeElems_err (elems : List JSON) : ∀ saved : Option GoError,
    (decodeElems elems saved).2 = none ↔ saved = none ∧ elems.all fitsFolder = true := by
  induction elems with
  | nil => intro saved; simp [decodeElems]
  | cons e es ih =>
    intro saved
    simp only [decodeElems, ih, decodeFolder_err, List.all_cons, Bool.and_eq_true]
    tauto

theorem decodeElems_length (elems : List JSON) : ∀ saved : Option GoError,
    (decodeElems elems saved).1.length = elems.length := by
  induction elems with
  | nil => intro saved; rfl
  | cons e es ih => intro saved; simp [decodeElems, ih]

theorem decodeFolders_err (v : JSON) (cur : List Folder) :
    (decodeFolders v cur).2 = none ↔ fitsFolders v = true := by
  cases v with
  | arr elems => simp [decodeFolders, fitsFolders, decodeElems_err]
  | _ => simp [decodeFolders, fitsFolders]

theorem listOnResponse_ok (resp : Response) (hstatus : resp.StatusCode = 200)
    (hread : resp.Body.err = none) :
    listOnResponse resp = unmarshalFolders resp.Body.data [] := by
  simp [listOnResponse, hstatus, ReadAll, hread]

theorem getOnResponse_ok (resp : Response) (hstatus : resp.StatusCode = 200)
    (hread : resp.Body.err = none) :
    getOnResponse resp = unmarshalFolderPtr resp.Body.data (some Folder.zero) := by
  simp [getOnResponse, hstatus, ReadAll, hread]

theorem createOnResponse_ok (resp : Response) (hstatus : resp.StatusCode = 200)
    (hread : resp.Body.err = none) :
    createOnResponse resp = unmarshalFolder resp.Body.data Folder.zero := by
  simp [createOnResponse, hstatus, ReadAll, hread]

/-! ## What the decoder stores -/

theorem lastOr_filterMap_cons {α β : Type} (f : α → Option β) (x : α) (xs : List α) (d : β) :
    lastOr ((x :: xs).filterMap f) d = lastOr (xs.filterMap f) ((f x).getD d) := by
  cases h : f x <;> simp [List.filterMap_cons, h, lastOr]

/-- One member changes exactly the field it names, and only when its value
has the type of the field. -/
theorem setField_value (st : Folder × Option GoError) (kv : String × JSON) :
    (setField st kv).1.Id = (idOf kv).getD st.1.Id ∧
    (setField st kv).1.Uid = (stringOf "uid" kv).getD st.1.Uid ∧
    (setField st kv).1.Title = (stringOf "title" kv).getD st.1.Title := by
  obtain ⟨key, v⟩ := kv
  unfold setField idOf stringOf
  by_cases h1 : fieldMatches key "id" = true
  · obtain ⟨h2, h3⟩ := fieldMatches_id key h1
    cases v with
    | num lit => cases hp : parseInt64 lit <;> simp [h1, h2, h3, storeInt64, hp]
    | _ => simp [h1, h2, h3, storeInt64]
  · by_cases h2 : fieldMatches key "uid" = true
    · obtain ⟨_, h3⟩ := fieldMatches_uid key h2
      cases v <;> simp [h1, h2, h3, storeString]
    · by_cases h3 : fieldMatches key "title" = true
      · cases v <;> simp [h1, h2, h3, storeString]
      · simp [h1, h2, h3]

theorem foldl_setField_value (members : List (String × JSON)) :
    ∀ st : Folder × Option GoError,
      (members.foldl setField st).1 =
        ⟨lastOr (members.filterMap idOf) st.1.Id,
          lastOr (members.filterMap (stringOf "uid")) st.1.Uid,
          lastOr (members.filterMap (stringOf "title")) st.1.Title⟩ := by
  induction members with
  | nil => intro st; rfl
  | cons kv rest ih =>
    intro st
    obtain ⟨h1, h2, h3⟩ := setField_value st kv
    rw [List.foldl_cons, ih, lastOr_filterMap_cons, lastOr_filterMap_cons,
      lastOr_filterMap_cons, h1, h2, h3]

/-- Decoding into a zero-valued Folder leaves `expectedFolder`, error or
not. -/
theorem decodeFolder_value (v : JSON) (saved : Option GoError) :
    (decodeFolder v Folder.zero saved).1 = expectedFolder v := by
  cases v with
  | obj members =>
    simp only [decodeFolder, expectedFolder, foldl_setField_value]
    rfl
  | _ => rfl

theorem decodeElems_value (elems : List JSON) : ∀ saved : Option GoError,
    (decodeElems elems saved).1 = elems.map expectedFolder := by
  induction elems with
  | nil => intro saved; rfl
  | cons e es ih =>
    intro saved
    simp only [decodeElems, ih, decodeFolder_value, List.map_cons, List.cons]

theorem decodeFolders_value (v : JSON) : (decodeFolders v []).1 = expectedFolders v := by
  cases v with
  | arr elems => simp [decodeFolders, expectedFolders, decodeElems_value]
  | _ => rfl

theorem unmarshalFolders_failure (data : String) :
    (parseJSON data = none →
      unmarshalFolders data [] = ([], some GoError.invalidJSON)) ∧
    (∀ v, parseJSON data = some v → fitsFolders v = false →
      (∃ e, (unmarshalFolders data []).2 = some e) ∧
      (unmarshalFolders data []).1 = expectedFolders v) := by
  constructor
  · intro h; simp [unmarshalFolders, h]
  · intro v hv hfit
    simp only [unmarshalFolders, hv]
    refine ⟨?_, decodeFolders_value v⟩
    have h := (decodeFolders_err v []).not
    rw [hfit] at h
    simp only [Bool.false_eq_true, not_false_eq_true, iff_true] at h
    exact Option.ne_none_iff_exists'.mp h

theorem unmarshalFolder_failure (data : String) :
    (parseJSON data = none →
      unmarshalFolder data Folder.zero = (Folder.zero, some GoError.invalidJSON)) ∧
    (∀ v, parseJSON data = some v → fitsFolder v = false →
      (∃ e, (unmarshalFolder data Folder.zero).2 = some e) ∧
      (unmarshalFolder data Folder.zero).1 = expectedFolder v) := by
  constructor
  · intro h; simp [unmarshalFolder, h]
  · intro v hv hfit
    simp only [unmarshalFolder, hv]
    refine ⟨?_, decodeFolder_value v none⟩
    have h := (decodeFolder_err v Folder.zero none).not
    rw [hfit] at h
    simp only [Bool.false_eq_true, and_false, not_false_eq_true, iff_true] at h
    exact Option.ne_none_iff_exists'.mp h

theorem unmarshalFolderPtr_failure (data : String) :
    (parseJSON data = none →
      unmarshalFolderPtr data (some Folder.zero) =
        (some Folder.zero, some GoError.invalidJSON)) ∧
    (∀ v, parseJSON data = some v → fitsFolder v = false →
      (∃ e, (unmarshalFolderPtr data (some Folder.zero)).2 = some e) ∧
      (unmarshalFolderPtr data (some Folder.zero)).1 = some (expectedFolder v)) := by
  constructor
  · intro h; simp [unmarshalFolderPtr, h]
  · intro v hv hfit
    have hnn : v ≠ JSON.null := by
      intro h; subst h; simp [fitsFolder] at hfit
    have hptr : unmarshalFolderPtr data (some Folder.zero) =
        (some (decodeFolder v Folder.zero none).1, (decodeFolder v Folder.zero none).2) := by
      simp only [unmarshalFolderPtr, hv]
      cases v with
      | null => exact absurd rfl hnn
      | _ => rfl
    rw [hptr]
    refine ⟨?_, by rw [decodeFolder_value]⟩
    have h := (decodeFolder_err v Folder.zero none).not
    rw [hfit] at h
    simp only [Bool.false_eq_true, and_false, not_false_eq_true, iff_true] at h
    exact Option.ne_none_iff_exists'.mp h

/-- Counterexample to C3 as stated: on a status-200 response whose body is an
array with a well-formed first folder and a second one whose `"id"` is a
string, `Folders` returns both elements (the second with `Id` left at zero)
together with a non-nil error, not the empty sequence; and `NewFolder` on an
object with a string `"id"` returns a Folder with `Uid` and `Title` set. -/
theorem decode_failure_keeps_decoded_parts :
    ((cannedClient (okResponse mistypedSecondBody)).Folders).answeredBy
      (cannedClient (okResponse mistypedSecondBody)) (okResponse mistypedSecondBody) ∧
    ((cannedClient (okResponse mistypedSecondBody)).Folders).value =
      [⟨1, "a", "A"⟩, ⟨0, "b", "B"⟩] ∧
    ((cannedClient (okResponse mistypedSecondBody)).Folders).value ≠ [] ∧
    ((cannedClient (okResponse mistypedSecondBody)).Folders).err =
      some (GoError.typeMismatch "string" "int64") ∧
    ((cannedClient (okResponse mistypedIdBody)).NewFolder (utf8 "B")).value = ⟨0, "b", "B"⟩ ∧
    ((cannedClient (okResponse mistypedIdBody)).NewFolder (utf8 "B")).value ≠ Folder.zero ∧
    ((cannedClient (okResponse mistypedIdBody)).NewFolder (utf8 "B")).err =
      some (GoError.typeMismatch "string" "int64") :=
  ⟨by rw [Folders_eq]; exact cannedClient_answers _ _, by decide, by decide, by decide,
    by decide, by decide, by decide⟩

/-- C3, amended. For every status-200 response with a readable body that
fails to decode into the expected shape, the six decoding operations return a
non-nil error. When the body is not valid JSON, the value is the empty
sequence or the zero-valued Folder. When the body is valid JSON of the wrong
shape, the value is what the decoder stored: the list operations return one
Folder per element of an array and the empty sequence for any other value;
the other four return the Folder decoded from the body; and a Folder decoded
from an object has each field set from the last member that names it with a
value of its type and left at zero where there is none, while a value that is
not an object gives the zero-valued Folder (`expectedFolder`). -/
theorem decode_failure_yields_error {Req : Type} (c : Client Req) (query folderUID : String)
    (id : Int) (title uid : Bytes) (resp : Response) (hstatus : resp.StatusCode = 200)
    (hread : resp.Body.err = none) :
    (parseJSON resp.Body.data = none →
      ((c.Folders).answeredBy c resp →
        (c.Folders).value = [] ∧ (c.Folders).err = some GoError.invalidJSON) ∧
      ((c.SearchFolder query).answeredBy c resp →
        (c.SearchFolder query).value = [] ∧
          (c.SearchFolder query).err = some GoError.invalidJSON) ∧
      ((c.Folder id).answeredBy c resp →
        (c.Folder id).value = some Folder.zero ∧
          (c.Folder id).err = some GoError.invalidJSON) ∧
      ((c.FolderByUID folderUID).answeredBy c resp →
        (c.FolderByUID folderUID).value = some Folder.zero ∧
          (c.FolderByUID folderUID).err = some GoError.invalidJSON) ∧
      ((c.NewFolder title).answeredBy c resp →
        (c.NewFolder title).value = Folder.zero ∧
          (c.NewFolder title).err = some GoError.invalidJSON) ∧
      ((c.NewFolderWithUID title uid).answeredBy c resp →
        (c.NewFolderWithUID title uid).value = Folder.zero ∧
          (c.NewFolderWithUID title uid).err = some GoError.invalidJSON)) ∧
    (∀ v, parseJSON resp.Body.data = some v →
      (fitsFolders v = false →
        ((c.Folders).answeredBy c resp →
          (∃ e, (c.Folders).err = some e) ∧ (c.Folders).value = expectedFolders v) ∧
        ((c.SearchFolder query).answeredBy c resp →
          (∃ e, (c.SearchFolder query).err = some e) ∧
            (c.SearchFolder query).value = expectedFolders v)) ∧
      (fitsFolder v = false →
        ((c.Folder id).answeredBy c resp →
          (∃ e, (c.Folder id).err = some e) ∧
            (c.Folder id).value = some (expectedFolder v)) ∧
        ((c.FolderByUID folderUID).answeredBy c resp →
          (∃ e, (c.FolderByUID folderUID).err = some e) ∧
            (c.FolderByUID folderUID).value = some (expectedFolder v)) ∧
        ((c.NewFolder title).answeredBy c resp →
          (∃ e, (c.NewFolder title).err = some e) ∧
            (c.NewFolder title).value = expectedFolder v) ∧
        ((c.NewFolderWithUID title uid).answeredBy c resp →
          (∃ e, (c.NewFolderWithUID title uid).err = some e) ∧
            (c.NewFolderWithUID title uid).value = expectedFolder v))) := by
  have hl := listOnResponse_ok resp hstatus hread
  have hg := getOnResponse_ok resp hstatus hread
  have hc := createOnResponse_ok resp hstatus hread
  constructor
  · intro hbad
    have h1 := (unmarshalFolders_failure resp.Body.data).1 hbad
    have h2 := (unmarshalFolderPtr_failure resp.Body.data).1 hbad
    have h3 := (unmarshalFolder_failure resp.Body.data).1 hbad
    refine ⟨?_, ?_, ?_, ?_, ?_, ?_⟩
    · intro h
      obtain ⟨hv, he⟩ := Folders_answered c resp h
      rw [hv, he, hl, h1]; exact ⟨rfl, rfl⟩
    · intro h
      obtain ⟨hv, he⟩ := SearchFolder_answered c query resp h
      rw [hv, he, hl, h1]; exact ⟨rfl, rfl⟩
    · intro h
      obtain ⟨hv, he⟩ := Folder_answered c id resp h
      rw [hv, he, hg, h2]; exact ⟨rfl, rfl⟩
    · intro h
      obtain ⟨hv, he⟩ := FolderByUID_answered c folderUID resp h
      rw [hv, he, hg, h2]; exact ⟨rfl, rfl⟩
    · intro h
      obtain ⟨hv, he⟩ := NewFolder_answered c title resp h
      rw [hv, he, hc, h3]; exact ⟨rfl, rfl⟩
    · intro h
      obtain ⟨hv, he⟩ := NewFolderWithUID_answered c title uid resp h
      rw [hv, he, hc, h3]; exact ⟨rfl, rfl⟩
  · intro v hv
    constructor
    · intro hfit
      have h1 := (unmarshalFolders_failure resp.Body.data).2 v hv hfit
      constructor
      · intro h
        obtain ⟨hval, he⟩ := Folders_answered c resp h
        rw [hval, he, hl]; exact h1
      · intro h
        obtain ⟨hval, he⟩ := SearchFolder_answered c query resp h
        rw [hval, he, hl]; exact h1
    · intro hfit
      have h2 := (unmarshalFolderPtr_failure resp.Body.data).2 v hv hfit
      have h3 := (unmarshalFolder_failure resp.Body.data).2 v hv hfit
      refine ⟨?_, ?_, ?_, ?_⟩
      · intro h
        obtain ⟨hval, he⟩ := Folder_answered c id resp h
        rw [hval, he, hg]; exact h2
      · intro h
        obtain ⟨hval, he⟩ := FolderByUID_answered c folderUID resp h
        rw [hval, he, hg]; exact h2
      · intro h
        obtain ⟨hval, he⟩ := NewFolder_answered c title resp h
        rw [hval, he, hc]; exact h3
      · intro h
        obtain ⟨hval, he⟩ := NewFolderWithUID_answered c title uid resp h
        rw [hval, he, hc]; exact h3

/-- Witness of amended C3: a body that is not JSON answers `Folder(5)`, and
the array with a mistyped second element answers `Folders`. -/
theorem decode_failure_yields_error_witness :
    ((okResponse "<html>").StatusCode = 200 ∧ (okResponse "<html>").Body.err = none ∧
      parseJSON (okResponse "<html>").Body.data = none ∧
      ((cannedClient (okResponse "<html>")).Folder 5).answeredBy
        (cannedClient (okResponse "<html>")) (okResponse "<html>") ∧
      ((cannedClient (okResponse "<html>")).Folder 5).value = some Folder.zero ∧
      ((cannedClient (okResponse "<html>")).Folder 5).err = some GoError.invalidJSON) ∧
    (parseJSON (okResponse mistypedSecondBody).Body.data = some mistypedSecondValue ∧
      fitsFolders mistypedSecondValue = false ∧
      expectedFolders mistypedSecondValue = [⟨1, "a", "A"⟩, ⟨0, "b", "B"⟩] ∧
      (∃ e, ((cannedClient (okResponse mistypedSecondBody)).Folders).err = some e) ∧
      ((cannedClient (okResponse mistypedSecondBody)).Folders).value =
        expectedFolders mistypedSecondValue) :=
  ⟨⟨rfl, rfl, by rfl, by rw [Folder_eq]; exact cannedClient_answers _ _,
      ((decode_failure_yields_error (cannedClient (okResponse "<html>")) "" "" 5 [] []
        (okResponse "<html>") rfl rfl).1 (by rfl)).2.2.1
        (by rw [Folder_eq]; exact cannedClient_answers _ _)⟩,
    ⟨by rfl, by decide, by decide,
      (((decode_failure_yields_error (cannedClient (okResponse mistypedSecondBody)) "" "" 5 []
        [] (okResponse mistypedSecondBody) rfl rfl).2 mistypedSecondValue (by rfl)).1
        (by decide)).1 (by rw [Folders_eq]; exact cannedClient_answers _ _)⟩⟩
/-! ## String literals: the decoder inverts the encoder -/

theorem hexVal_hexDigit (n : Nat) (h : n < 16) : hexVal (hexDigit n) = some n := by
  interval_cases n <;> decide

theorem readHex4_low (n : Nat) (h : n < 256) (tail : List Char) :
    readHex4 ('0' :: '0' :: hexDigit (n / 16) :: hexDigit (n % 16) :: tail) = some (n, tail) := by
  have h0 : hexVal '0' = some 0 := by decide
  have h1 : hexVal (hexDigit (n / 16)) = some (n / 16) := hexVal_hexDigit _ (by omega)
  have h2 : hexVal (hexDigit (n % 16)) = some (n % 16) := hexVal_hexDigit _ (by omega)
  simp only [readHex4, h0, h1, h2]
  congr 2
  omega

theorem readString_plain (c : Char) (fuel : Nat) (tail acc : List Char)
    (hq : c ≠ dquote) (hb : c ≠ bslash) (hctl : ¬ c.toNat < 0x20) :
    readString (fuel + 1) (c :: tail) acc = readString fuel tail (c :: acc) := by
  rw [readString.eq_def]
  simp [hq, hb, hctl]

theorem readString_escape (e : Char) (fuel : Nat) (tail acc : List Char) :
    readString (fuel + 1) (bslash :: e :: tail) acc =
      if e = dquote ∨ e = bslash ∨ e = '/' then readString fuel tail (e :: acc)
      else if e = 'b' then readString fuel tail (Char.ofNat 8 :: acc)
      else if e = 'f' then readString fuel tail (Char.ofNat 12 :: acc)
      else if e = 'n' then readString fuel tail (Char.ofNat 10 :: acc)
      else if e = 'r' then readString fuel tail (Char.ofNat 13 :: acc)
      else if e = 't' then readString fuel tail (Char.ofNat 9 :: acc)
      else if e = 'u' then
        match readHex4 tail with
        | none => none
        | some (hi, rest3) =>
          if isSurrogate hi then
            match readLowSurrogate rest3 with
            | some (lo, rest4) =>
              if hi < 0xDC00 ∧ 0xDC00 ≤ lo ∧ lo < 0xE000 then
                readString fuel rest4
                  (Char.ofNat ((hi - 0xD800) * 1024 + (lo - 0xDC00) + 0x10000) :: acc)
              else readString fuel rest3 (replacementChar :: acc)
            | none => readString fuel rest3 (replacementChar :: acc)
          else readString fuel rest3 (Char.ofNat hi :: acc)
      else none := by
  have hbq : bslash ≠ dquote := by decide
  rw [readString.eq_def]
  simp only [hbq, if_false, if_true]

theorem readString_escapeChar (c : Char) (fuel : Nat) (tail acc : List Char) :
    readString (fuel + 1) (escapeChar c ++ tail) acc = readString fuel tail (c :: acc) := by
  unfold escapeChar
  split
  · rename_i h; subst h
    simp [readString_escape]
  · rename_i hq
    split
    · rename_i h; subst h
      simp [readString_escape]
    · rename_i hb
      split
      · rename_i h; subst h
        have e1 : 'b' ≠ dquote := by decide
        have e2 : 'b' ≠ bslash := by decide
        simp [readString_escape, e1, e2]
      · rename_i hbs
        split
        · rename_i h; subst h
          have e1 : 'f' ≠ dquote := by decide
          have e2 : 'f' ≠ bslash := by decide
          simp [readString_escape, e1, e2]
        · rename_i hff
          split
          · rename_i h; subst h
            have e1 : 'n' ≠ dquote := by decide
            have e2 : 'n' ≠ bslash := by decide
            simp [readString_escape, e1, e2]
          · rename_i hn
            split
            · rename_i h; subst h
              have e1 : 'r' ≠ dquote := by decide
              have e2 : 'r' ≠ bslash := by decide
              simp [readString_escape, e1, e2]
            · rename_i hr
              split
              · rename_i h; subst h
                have e1 : 't' ≠ dquote := by decide
                have e2 : 't' ≠ bslash := by decide
                simp [readString_escape, e1, e2]
              · rename_i ht
                split
                · rename_i hlow
                  have hlt : c.toNat < 64 := by
                    rcases hlow with h | h | h | h
                    · omega
                    · subst h; decide
                    · subst h; decide
                    · subst h; decide
                  have hsur : isSurrogate c.toNat = false := by
                    simp only [isSurrogate, decide_eq_false_iff_not, not_and, not_lt]
                    intro h; omega
                  have e1 : 'u' ≠ dquote := by decide
                  have e2 : 'u' ≠ bslash := by decide
                  simp [readString_escape, e1, e2, readHex4_low c.toNat (by omega), hsur]
                · rename_i hlow
                  split
                  · rename_i hsep
                    have e1 : 'u' ≠ dquote := by decide
                    have e2 : 'u' ≠ bslash := by decide
                    rcases hsep with h | h
                    · subst h
                      have hx : readHex4 ('2' :: '0' :: '2' ::
                          hexDigit 8 :: tail) = some (0x2028, tail) := by
                        simp only [readHex4]
                        rfl
                      have hs : isSurrogate 0x2028 = false := by decide
                      simp [readString_escape, e1, e2, hx, hs]
                    · subst h
                      have hx : readHex4 ('2' :: '0' :: '2' ::
                          hexDigit 9 :: tail) = some (0x2029, tail) := by
                        simp only [readHex4]
                        rfl
                      have hs : isSurrogate 0x2029 = false := by decide
                      simp [readString_escape, e1, e2, hx, hs]
                  · rename_i hsep
                    have hctl : ¬ c.toNat < 0x20 := fun h => hlow (Or.inl h)
                    simp [readString_plain c fuel tail acc hq hb hctl]

theorem readString_escapeRune (r : GoRune) (fuel : Nat) (tail acc : List Char) :
    readString (fuel + 1) (escapeRune r ++ tail) acc = readString fuel tail (r.char :: acc) := by
  cases r with
  | valid c => exact readString_escapeChar c fuel tail acc
  | invalid b =>
    have e1 : 'u' ≠ dquote := by decide
    have e2 : 'u' ≠ bslash := by decide
    have hx : readHex4 ('f' :: 'f' :: 'f' :: 'd' :: tail) = some (0xFFFD, tail) := by
      simp only [readHex4]
      rfl
    have hs : isSurrogate 0xFFFD = false := by decide
    simp [escapeRune, GoRune.char, replacementChar, readString_escape, e1, e2, hx, hs]

theorem readString_escapeRunes (rs : List GoRune) : ∀ (fuel : Nat) (tail acc : List Char),
    rs.length < fuel →
    readString fuel (escapeRunes rs ++ dquote :: tail) acc =
      some (acc.reverse ++ rs.map GoRune.char, tail) := by
  induction rs with
  | nil =>
    intro fuel tail acc h
    obtain ⟨f, rfl⟩ : ∃ f, fuel = f + 1 := ⟨fuel - 1, by simp at h; omega⟩
    simp [escapeRunes, readString]
  | cons r rs ih =>
    intro fuel tail acc h
    obtain ⟨f, rfl⟩ : ∃ f, fuel = f + 1 := ⟨fuel - 1, by simp at h; omega⟩
    simp only [escapeRunes, List.append_assoc]
    rw [readString_escapeRune, ih f tail (r.char :: acc) (by simp at h; omega)]
    simp

theorem escapeRune_length (r : GoRune) : 1 ≤ (escapeRune r).length := by
  cases r with
  | valid c =>
    simp only [escapeRune]
    unfold escapeChar
    repeat' split
    all_goals simp
  | invalid b => simp [escapeRune]

theorem escapeRunes_length (rs : List GoRune) : rs.length ≤ (escapeRunes rs).length := by
  induction rs with
  | nil => simp [escapeRunes]
  | cons r rs ih =>
    have := escapeRune_length r
    simp only [escapeRunes, List.length_cons, List.length_append]
    omega

/-- Reading back an encoded string literal (without its opening quote): the
decoder gets the string coerced to valid UTF-8. -/
theorem readString_encoded (rs : List GoRune) (tail : List Char) :
    readString (escapeRunes rs ++ dquote :: tail).length
      (escapeRunes rs ++ dquote :: tail) [] = some (rs.map GoRune.char, tail) := by
  have h := escapeRunes_length rs
  rw [readString_escapeRunes rs _ tail []
    (by simp only [List.length_append, List.length_cons]; omega)]
  simp

/-! ## UTF-8: decoding inverts encoding -/

theorem char_toNat_range (c : Char) :
    c.toNat < 0xD800 ∨ (0xDFFF < c.toNat ∧ c.toNat < 0x110000) := by
  have h := c.valid
  simp only [UInt32.isValidChar, Nat.isValidChar] at h
  exact h

theorem decodeRune_utf8EncodeChar (c : Char) (rest : Bytes) :
    decodeRune (utf8EncodeChar c ++ rest) = some (GoRune.valid c, rest) := by
  have hr := char_toNat_range c
  have hc : Char.ofNat c.toNat = c := Char.ofNat_toNat c
  generalize hn : c.toNat = n at hr hc
  unfold utf8EncodeChar
  rw [hn]
  by_cases h1 : n < 0x80
  · simp [decodeRune, h1, hc]
  · by_cases h2 : n < 0x800
    · have a1 : ¬ (0xC0 + n / 64 < 0x80) := by omega
      have a2 : ¬ (0xC0 + n / 64 < 0xC2) := by omega
      have a3 : 0xC0 + n / 64 < 0xE0 := by omega
      have a4 : 0x80 ≤ 0x80 + n % 64 ∧ 0x80 + n % 64 ≤ 0xBF := by omega
      have a5 : (0xC0 + n / 64) % 32 * 64 + (0x80 + n % 64) % 64 = n := by omega
      simp only [h1, h2, if_false, if_true, List.cons_append, List.nil_append, decodeRune,
        a1, a2, a3, a4, a5, hc, and_self]
    · by_cases h3 : n < 0x10000
      · have a1 : ¬ (0xE0 + n / 4096 < 0x80) := by omega
        have a2 : ¬ (0xE0 + n / 4096 < 0xC2) := by omega
        have a3 : ¬ (0xE0 + n / 4096 < 0xE0) := by omega
        have a3b : 0xE0 + n / 4096 < 0xF0 := by omega
        have a4 : (if 0xE0 + n / 4096 = 0xE0 then 0xA0 else 0x80) ≤ 0x80 + n / 64 % 64 ∧
            0x80 + n / 64 % 64 ≤ (if 0xE0 + n / 4096 = 0xED then 0x9F else 0xBF) ∧
            0x80 ≤ 0x80 + n % 64 ∧ 0x80 + n % 64 ≤ 0xBF := by
          refine ⟨?_, ?_, by omega, by omega⟩
          · split <;> omega
          · split <;> omega
        have a5 : (0xE0 + n / 4096) % 16 * 4096 + (0x80 + n / 64 % 64) % 64 * 64 +
            (0x80 + n % 64) % 64 = n := by omega
        simp only [h1, h2, h3, if_false, if_true, List.cons_append, List.nil_append, decodeRune,
          a1, a2, a3, a3b, a4, a5, hc, and_self]
      · have a1 : ¬ (0xF0 + n / 262144 < 0x80) := by omega
        have a2 : ¬ (0xF0 + n / 262144 < 0xC2) := by omega
        have a3 : ¬ (0xF0 + n / 262144 < 0xE0) := by omega
        have a3b : ¬ (0xF0 + n / 262144 < 0xF0) := by omega
        have a3c : 0xF0 + n / 262144 < 0xF5 := by omega
        have a4 : (if 0xF0 + n / 262144 = 0xF0 then 0x90 else 0x80) ≤ 0x80 + n / 4096 % 64 ∧
            0x80 + n / 4096 % 64 ≤ (if 0xF0 + n / 262144 = 0xF4 then 0x8F else 0xBF) ∧
            0x80 ≤ 0x80 + n / 64 % 64 ∧ 0x80 + n / 64 % 64 ≤ 0xBF ∧
            0x80 ≤ 0x80 + n % 64 ∧ 0x80 + n % 64 ≤ 0xBF := by
          refine ⟨?_, ?_, by omega, by omega, by omega, by omega⟩
          · split <;> omega
          · split <;> omega
        have a5 : (0xF0 + n / 262144) % 8 * 262144 + (0x80 + n / 4096 % 64) % 64 * 4096 +
            (0x80 + n / 64 % 64) % 64 * 64 + (0x80 + n % 64) % 64 = n := by omega
        simp only [h1, h2, h3, if_false, if_true, List.cons_append, List.nil_append, decodeRune,
          a1, a2, a3, a3b, a3c, a4, a5, hc, and_self]

theorem utf8EncodeChar_length (c : Char) : 1 ≤ (utf8EncodeChar c).length := by
  unfold utf8EncodeChar
  repeat' split
  all_goals simp

theorem utf8Chars_length (l : List Char) : l.length ≤ (utf8Chars l).length := by
  induction l with
  | nil => simp [utf8Chars]
  | cons c l ih =>
    have := utf8EncodeChar_length c
    simp only [utf8Chars, List.length_cons, List.length_append]
    omega

theorem decodeRunes_utf8Chars (l : List Char) : ∀ fuel : Nat, l.length ≤ fuel →
    decodeRunes fuel (utf8Chars l) = l.map GoRune.valid := by
  induction l with
  | nil =>
    intro fuel _
    cases fuel <;> simp [decodeRunes, utf8Chars, decodeRune]
  | cons c l ih =>
    intro fuel h
    obtain ⟨f, rfl⟩ : ∃ f, fuel = f + 1 := ⟨fuel - 1, by simp at h; omega⟩
    simp only [decodeRunes, utf8Chars, decodeRune_utf8EncodeChar, List.map_cons]
    rw [ih f (by simp at h; omega)]

theorem decodeRunes_utf8 (s : String) :
    decodeRunes (utf8 s).length (utf8 s) = s.data.map GoRune.valid :=
  decodeRunes_utf8Chars s.data _ (utf8Chars_length s.data)

/-- A text encoded in UTF-8 is valid UTF-8: coercing it changes nothing. -/
theorem toValidUTF8_utf8 (s : String) : toValidUTF8 (utf8 s) = s := by
  unfold toValidUTF8
  rw [decodeRunes_utf8, List.map_map]
  have : (GoRune.char ∘ GoRune.valid) = id := by
    funext c
    rfl
  rw [this, List.map_id]

theorem char_ofNat_toNat_of_valid (n : Nat) (h : n < 0xD800 ∨ (0xDFFF < n ∧ n < 0x110000)) :
    (Char.ofNat n).toNat = n := by
  have hv : n.isValidChar := h
  simp [Char.ofNat, hv, Char.toNat, Char.ofNatAux, UInt32.toNat, BitVec.toNat_ofNatLt]

theorem decodeRune_valid_inv (s : Bytes) (c : Char) (rest : Bytes)
    (h : decodeRune s = some (GoRune.valid c, rest)) : s = utf8EncodeChar c ++ rest := by
  unfold decodeRune at h
  cases s with
  | nil => simp at h
  | cons b0 t =>
    simp only [] at h
    by_cases h1 : b0 < 0x80
    · simp only [h1, if_true, Option.some.injEq, Prod.mk.injEq, GoRune.valid.injEq] at h
      obtain ⟨hc, hr⟩ := h
      have hn := char_ofNat_toNat_of_valid b0 (by omega)
      subst hc hr
      simp [utf8EncodeChar, hn, h1]
    · by_cases h2 : b0 < 0xC2
      · simp [h1, h2] at h
      · by_cases h3 : b0 < 0xE0
        · simp only [h1, h2, h3, if_true, if_false] at h
          cases t with
          | nil => simp at h
          | cons b1 t1 =>
            simp only [] at h
            by_cases hb : 0x80 ≤ b1 ∧ b1 ≤ 0xBF
            · simp only [hb, and_self, if_true, Option.some.injEq, Prod.mk.injEq,
                GoRune.valid.injEq] at h
              obtain ⟨hc, hr⟩ := h
              have hn := char_ofNat_toNat_of_valid (b0 % 32 * 64 + b1 % 64) (by omega)
              subst hc hr
              have a1 : ¬ (b0 % 32 * 64 + b1 % 64 < 0x80) := by omega
              have a2 : b0 % 32 * 64 + b1 % 64 < 0x800 := by omega
              have a3 : 0xC0 + (b0 % 32 * 64 + b1 % 64) / 64 = b0 := by omega
              have a4 : 0x80 + (b0 % 32 * 64 + b1 % 64) % 64 = b1 := by omega
              simp only [utf8EncodeChar, hn, a1, a2, a3, a4, if_true, if_false, List.cons_append,
                List.nil_append]
            · simp [hb] at h
        · by_cases h4 : b0 < 0xF0
          · simp only [h1, h2, h3, h4, if_true, if_false] at h
            cases t with
            | nil => simp at h
            | cons b1 t1 =>
              cases t1 with
              | nil => simp at h
              | cons b2 t2 =>
                simp only [] at h
                by_cases hb : (if b0 = 0xE0 then 0xA0 else 0x80) ≤ b1 ∧
                    b1 ≤ (if b0 = 0xED then 0x9F else 0xBF) ∧ 0x80 ≤ b2 ∧ b2 ≤ 0xBF
                · simp only [hb, and_self, if_true, Option.some.injEq, Prod.mk.injEq,
                    GoRune.valid.injEq] at h
                  obtain ⟨hc, hr⟩ := h
                  obtain ⟨hlo, hhi, hb2, hb2b⟩ := hb
                  have hlo2 : 0x80 ≤ b1 ∧ (b0 = 0xE0 → 0xA0 ≤ b1) := by
                    split at hlo <;> constructor <;> omega
                  have hhi2 : b1 ≤ 0xBF ∧ (b0 = 0xED → b1 ≤ 0x9F) := by
                    split at hhi <;> constructor <;> omega
                  have hn := char_ofNat_toNat_of_valid
                    (b0 % 16 * 4096 + b1 % 64 * 64 + b2 % 64) (by omega)
                  subst hc hr
                  have a1 : ¬ (b0 % 16 * 4096 + b1 % 64 * 64 + b2 % 64 < 0x80) := by omega
                  have a2 : ¬ (b0 % 16 * 4096 + b1 % 64 * 64 + b2 % 64 < 0x800) := by omega
                  have a2b : b0 % 16 * 4096 + b1 % 64 * 64 + b2 % 64 < 0x10000 := by omega
                  have a3 : 0xE0 + (b0 % 16 * 4096 + b1 % 64 * 64 + b2 % 64) / 4096 = b0 := by
                    omega
                  have a4 : 0x80 + (b0 % 16 * 4096 + b1 % 64 * 64 + b2 % 64) / 64 % 64 = b1 := by
                    omega
                  have a5 : 0x80 + (b0 % 16 * 4096 + b1 % 64 * 64 + b2 % 64) % 64 = b2 := by
                    omega
                  simp only [utf8EncodeChar, hn, a1, a2, a2b, a3, a4, a5, if_true, if_false,
                    List.cons_append, List.nil_append]
                · simp [hb] at h
          · by_cases h5 : b0 < 0xF5
            · simp only [h1, h2, h3, h4, h5, if_true, if_false] at h
              cases t with
              | nil => simp at h
              | cons b1 t1 =>
                cases t1 with
                | nil => simp at h
                | cons b2 t2 =>
                  cases t2 with
                  | nil => simp at h
                  | cons b3 t3 =>
                    simp only [] at h
                    by_cases hb : (if b0 = 0xF0 then 0x90 else 0x80) ≤ b1 ∧
                        b1 ≤ (if b0 = 0xF4 then 0x8F else 0xBF) ∧ 0x80 ≤ b2 ∧ b2 ≤ 0xBF ∧
                        0x80 ≤ b3 ∧ b3 ≤ 0xBF
                    · simp only [hb, and_self, if_true, Option.some.injEq, Prod.mk.injEq,
                        GoRune.valid.injEq] at h
                      obtain ⟨hc, hr⟩ := h
                      obtain ⟨hlo, hhi, hb2, hb2b, hb3, hb3b⟩ := hb
                      have hlo2 : 0x80 ≤ b1 ∧ (b0 = 0xF0 → 0x90 ≤ b1) := by
                        split at hlo <;> constructor <;> omega
                      have hhi2 : b1 ≤ 0xBF ∧ (b0 = 0xF4 → b1 ≤ 0x8F) := by
                        split at hhi <;> constructor <;> omega
                      have hn := char_ofNat_toNat_of_valid
                        (b0 % 8 * 262144 + b1 % 64 * 4096 + b2 % 64 * 64 + b3 % 64) (by omega)
                      subst hc hr
                      have a1 : ¬ (b0 % 8 * 262144 + b1 % 64 * 4096 + b2 % 64 * 64 + b3 % 64
                          < 0x80) := by omega
                      have a2 : ¬ (b0 % 8 * 262144 + b1 % 64 * 4096 + b2 % 64 * 64 + b3 % 64
                          < 0x800) := by omega
                      have a2b : ¬ (b0 % 8 * 262144 + b1 % 64 * 4096 + b2 % 64 * 64 + b3 % 64
                          < 0x10000) := by omega
                      have a3 : 0xF0 + (b0 % 8 * 262144 + b1 % 64 * 4096 + b2 % 64 * 64 +
                          b3 % 64) / 262144 = b0 := by omega
                      have a4 : 0x80 + (b0 % 8 * 262144 + b1 % 64 * 4096 + b2 % 64 * 64 +
                          b3 % 64) / 4096 % 64 = b1 := by omega
                      have a5 : 0x80 + (b0 % 8 * 262144 + b1 % 64 * 4096 + b2 % 64 * 64 +
                          b3 % 64) / 64 % 64 = b2 := by omega
                      have a6 : 0x80 + (b0 % 8 * 262144 + b1 % 64 * 4096 + b2 % 64 * 64 +
                          b3 % 64) % 64 = b3 := by omega
                      simp only [utf8EncodeChar, hn, a1, a2, a2b, a3, a4, a5, a6, if_true,
                        if_false, List.cons_append, List.nil_append]
                    · simp [hb] at h
            · simp [h1, h2, h3, h4, h5] at h

theorem decodeRune_none (s : Bytes) (h : decodeRune s = none) : s = [] := by
  cases s with
  | nil => rfl
  | cons b0 t =>
    exfalso
    unfold decodeRune at h
    simp only [] at h
    repeat' split at h
    all_goals simp at h

theorem utf8Chars_decodeRunes : ∀ (fuel : Nat) (s : Bytes), s.length ≤ fuel →
    (decodeRunes fuel s).all GoRune.isValid = true →
    utf8Chars ((decodeRunes fuel s).map GoRune.char) = s := by
  intro fuel
  induction fuel with
  | zero =>
    intro s hlen _
    have : s = [] := List.length_eq_zero.mp (by omega)
    subst this
    rfl
  | succ f ih =>
    intro s hlen hall
    simp only [decodeRunes] at hall ⊢
    cases hd : decodeRune s with
    | none =>
      rw [decodeRune_none s hd]
      rfl
    | some p =>
      obtain ⟨r, rest⟩ := p
      simp only [hd, List.all_cons, Bool.and_eq_true] at hall
      obtain ⟨hr, hrest⟩ := hall
      cases r with
      | invalid b => simp [GoRune.isValid] at hr
      | valid c =>
        have hs := decodeRune_valid_inv s c rest hd
        have hl := utf8EncodeChar_length c
        have hrl : rest.length ≤ f := by
          rw [hs, List.length_append] at hlen
          omega
        simp only [List.map_cons, utf8Chars, GoRune.char]
        rw [ih rest hrl hrest, ← hs]

/-- A string that is valid UTF-8 is the UTF-8 encoding of the text the
encoder writes for it. -/
theorem utf8_toValidUTF8 (s : Bytes) (h : validUTF8 s = true) : utf8 (toValidUTF8 s) = s :=
  utf8Chars_decodeRunes s.length s (Nat.le_refl _) h

theorem validUTF8_utf8 (s : String) : validUTF8 (utf8 s) = true := by
  unfold validUTF8
  rw [decodeRunes_utf8]
  simp [GoRune.isValid]
/-! ## Objects of strings: `Marshal` followed by the parser -/

theorem skipSpace_cons (c : Char) (cs : List Char) (h : isSpace c = false) :
    skipSpace (c :: cs) = c :: cs := by
  simp [skipSpace, h]

theorem parseValue_string (s : Bytes) (fuel depth : Nat) (tail : List Char) :
    parseValue (fuel + 1) depth (encodeString s ++ tail) =
      some (JSON.str (toValidUTF8 s), tail) := by
  have hsp : isSpace dquote = false := by decide
  have h1 : dquote ≠ '{' := by decide
  have h2 : dquote ≠ '[' := by decide
  simp only [encodeString, List.cons_append, List.append_assoc, List.singleton_append,
    List.nil_append, parseValue, skipSpace_cons _ _ hsp, h1, h2, if_false, if_true,
    readString_encoded, toValidUTF8]

theorem parseMembers_step (k v : Bytes) (fuel depth : Nat) (rest : List Char) :
    parseMembers (fuel + 2) depth (encodeString k ++ ':' :: (encodeString v ++ rest)) =
      match skipSpace rest with
      | [] => none
      | c :: rest5 =>
        if c = ',' then
          match parseMembers (fuel + 1) depth rest5 with
          | none => none
          | some (ms, rest6) =>
            some ((toValidUTF8 k, JSON.str (toValidUTF8 v)) :: ms, rest6)
        else if c = '}' then some ([(toValidUTF8 k, JSON.str (toValidUTF8 v))], rest5)
        else none := by
  have hsp : isSpace dquote = false := by decide
  have hsc : isSpace ':' = false := by decide
  have hv := parseValue_string v fuel depth rest
  simp only [encodeString, List.cons_append, List.append_assoc, List.singleton_append,
    List.nil_append] at hv ⊢
  rw [parseMembers]
  simp only [skipSpace_cons _ _ hsp, skipSpace_cons _ _ hsc, if_true, readString_encoded, hv,
    toValidUTF8]

theorem parseMembers_encodeMembers : ∀ (entries : List (Bytes × Bytes)),
    entries ≠ [] → ∀ (fuel depth : Nat) (tail : List Char),
    parseMembers (fuel + entries.length + 1) depth (encodeMembers entries ++ '}' :: tail) =
      some (stringMembers entries, tail)
  | [], h, _, _, _ => absurd rfl h
  | [kv], _, fuel, depth, tail => by
    have hsb : isSpace '}' = false := by decide
    have h := parseMembers_step kv.1 kv.2 fuel depth ('}' :: tail)
    simp only [skipSpace_cons _ _ hsb] at h
    simp only [encodeMembers, List.length_singleton, List.append_assoc, List.cons_append]
    rw [h]
    simp [stringMembers]
  | kv :: kv2 :: rest, _, fuel, depth, tail => by
    have hsc : isSpace ',' = false := by decide
    have ih := parseMembers_encodeMembers (kv2 :: rest) (by simp) fuel depth tail
    have h := parseMembers_step kv.1 kv.2 (fuel + rest.length + 1) depth
      (',' :: (encodeMembers (kv2 :: rest) ++ '}' :: tail))
    simp only [skipSpace_cons _ _ hsc, if_true] at h
    simp only [List.length_cons] at ih ⊢
    simp only [encodeMembers, List.append_assoc, List.cons_append]
    have hfuel : fuel + (rest.length + 1 + 1) + 1 = fuel + rest.length + 1 + 2 := by omega
    have hfuel2 : fuel + (rest.length + 1) + 1 = fuel + rest.length + 1 + 1 := by omega
    rw [hfuel, h, ← hfuel2, ih]
    simp [stringMembers]

theorem encodeMembers_head : ∀ (entries : List (Bytes × Bytes)), entries ≠ [] →
    ∃ r, encodeMembers entries = dquote :: r
  | [], h => absurd rfl h
  | [kv], _ => ⟨_, by simp [encodeMembers, encodeString]; rfl⟩
  | kv :: kv2 :: rest, _ => ⟨_, by simp [encodeMembers, encodeString]; rfl⟩

theorem encodeMembers_length : ∀ (entries : List (Bytes × Bytes)),
    entries.length ≤ (encodeMembers entries).length
  | [] => by simp [encodeMembers]
  | [kv] => by simp [encodeMembers, encodeString]
  | kv :: kv2 :: rest => by
    have ih := encodeMembers_length (kv2 :: rest)
    simp only [List.length_cons] at ih
    simp only [encodeMembers, encodeString, List.length_cons, List.length_append]
    omega

/-- Parsing what `json.Marshal` wrote for a string map gives back the object
with exactly the entries of the map, in key order. -/
theorem parseJSON_marshalMap (dataMap : List (Bytes × Bytes)) :
    parseJSON (marshalMap dataMap) =
      some (JSON.obj (stringMembers (sortedEntries dataMap))) := by
  have hso : isSpace '{' = false := by decide
  have hsb : isSpace '}' = false := by decide
  have hsq : isSpace dquote = false := by decide
  have hq : dquote ≠ '}' := by decide
  unfold marshalMap
  generalize sortedEntries dataMap = entries
  by_cases hne : entries = []
  · subst hne
    rfl
  · obtain ⟨r, hr⟩ := encodeMembers_head entries hne
    have hlen := encodeMembers_length entries
    have hparse := parseMembers_encodeMembers entries hne
      ((encodeMembers entries).length - entries.length + 1) 1 []
    have hf : (encodeMembers entries).length - entries.length + 1 + entries.length + 1 =
        (encodeMembers entries).length + 1 + 1 := by omega
    rw [hf, hr] at hparse
    simp only [parseJSON, String.length, List.length_cons, List.length_append,
      List.length_singleton, List.length_nil]
    rw [parseValue]
    simp only [skipSpace_cons _ _ hso, if_true, hr, List.cons_append, skipSpace_cons _ _ hsq,
      hq, if_false]
    simp only [hr, List.length_cons, List.cons_append] at hparse ⊢
    rw [hparse]
    have hd : maxNestingDepth ≠ 0 := by decide
    simp [skipSpace, hd]

theorem sortedEntries_title_uid (title uid : Bytes) :
    sortedEntries [(utf8 "title", title), (utf8 "uid", uid)] =
      [(utf8 "title", title), (utf8 "uid", uid)] := by
  have h : utf8 "title" < utf8 "uid" := by decide
  simp [sortedEntries, insertSorted, h]


/-- Counterexample to C6 as stated: for the title that is the single byte
`0xFF` (a Go string that is not valid UTF-8), the body `NewFolder` sends is
`{"title":"\ufffd"}`; it decodes to the one-entry map whose title is the
replacement character U+FFFD, whose bytes are `EF BF BD` and not the title
that was given. -/
theorem create_body_replaces_invalid_bytes :
    ((cannedClient (okResponse infraBody)).NewFolder [0xFF]).sent =
      [⟨"POST", "/api/folders", none, some "\x7b\"title\":\"\\ufffd\"\x7d"⟩] ∧
    parseJSON "\x7b\"title\":\"\\ufffd\"\x7d" =
      some (JSON.obj [("title", JSON.str (String.mk [replacementChar]))]) ∧
    utf8 (String.mk [replacementChar]) = [0xEF, 0xBF, 0xBD] ∧
    utf8 (String.mk [replacementChar]) ≠ [0xFF] ∧
    validUTF8 [0xFF] = false :=
  ⟨by decide, by rfl, by decide, by decide, by decide⟩

/-- C6, amended. For every title that is valid UTF-8, `NewFolder(title)`
builds one request, a POST to `/api/folders` with no query whose body is what
`json.Marshal` writes for the map with the one entry `title`, and sends the
request once it is built; the body decodes to exactly the one-member object
`{"title": t}` where `t` is the text whose UTF-8 encoding is `title` (for
`"Ops"` the body is exactly `{"title":"Ops"}`). For every title and uid that
are valid UTF-8 the same holds of `NewFolderWithUID(title, uid)` and the
two-member object `{"title": t, "uid": u}`. -/
theorem create_request_body_roundtrip {Req : Type} (c : Client Req) (title uid : Bytes)
    (htitle : validUTF8 title = true) (huid : validUTF8 uid = true) :
    ((c.NewFolder title).built =
        [⟨"POST", "/api/folders", none, some (marshalMap [(utf8 "title", title)])⟩] ∧
      (∀ req, c.newRequest
          ⟨"POST", "/api/folders", none, some (marshalMap [(utf8 "title", title)])⟩ =
            Except.ok req → (c.NewFolder title).sent = [req]) ∧
      parseJSON (marshalMap [(utf8 "title", title)]) =
        some (JSON.obj [("title", JSON.str (toValidUTF8 title))]) ∧
      utf8 (toValidUTF8 title) = title) ∧
    marshalMap [(utf8 "title", utf8 "Ops")] = "\x7b\"title\":\"Ops\"\x7d" ∧
    ((c.NewFolderWithUID title uid).built =
        [⟨"POST", "/api/folders", none,
          some (marshalMap [(utf8 "title", title), (utf8 "uid", uid)])⟩] ∧
      (∀ req, c.newRequest
          ⟨"POST", "/api/folders", none,
            some (marshalMap [(utf8 "title", title), (utf8 "uid", uid)])⟩ =
            Except.ok req → (c.NewFolderWithUID title uid).sent = [req]) ∧
      parseJSON (marshalMap [(utf8 "title", title), (utf8 "uid", uid)]) =
        some (JSON.obj
          [("title", JSON.str (toValidUTF8 title)), ("uid", JSON.str (toValidUTF8 uid))]) ∧
      utf8 (toValidUTF8 title) = title ∧ utf8 (toValidUTF8 uid) = uid) := by
  refine ⟨⟨?_, ?_, ?_, utf8_toValidUTF8 title htitle⟩, by decide,
    ⟨?_, ?_, ?_, utf8_toValidUTF8 title htitle, utf8_toValidUTF8 uid huid⟩⟩
  · rw [NewFolder_eq]; exact roundTrip_built _ _ _ _
  · intro req hreq
    rw [NewFolder_eq]
    exact roundTrip_sent_of_built _ _ _ _ req hreq
  · rw [parseJSON_marshalMap]; rfl
  · rw [NewFolderWithUID_eq]; exact roundTrip_built _ _ _ _
  · intro req hreq
    rw [NewFolderWithUID_eq]
    exact roundTrip_sent_of_built _ _ _ _ req hreq
  · rw [parseJSON_marshalMap, sortedEntries_title_uid]; rfl

/-- Witness of C6: `NewFolder("Ops")` and `NewFolderWithUID("Ops", "ops-1")`
on a client that answers every request. -/
theorem create_request_body_roundtrip_witness :
    validUTF8 (utf8 "Ops") = true ∧ validUTF8 (utf8 "ops-1") = true ∧
    ((cannedClient (okResponse infraBody)).NewFolder (utf8 "Ops")).sent =
      [⟨"POST", "/api/folders", none, some "\x7b\"title\":\"Ops\"\x7d"⟩] ∧
    parseJSON "\x7b\"title\":\"Ops\"\x7d" = some (JSON.obj [("title", JSON.str "Ops")]) ∧
    ((cannedClient (okResponse infraBody)).NewFolderWithUID (utf8 "Ops") (utf8 "ops-1")).sent =
      [⟨"POST", "/api/folders", none, some "\x7b\"title\":\"Ops\",\"uid\":\"ops-1\"\x7d"⟩] ∧
    parseJSON "\x7b\"title\":\"Ops\",\"uid\":\"ops-1\"\x7d" =
      some (JSON.obj [("title", JSON.str "Ops"), ("uid", JSON.str "ops-1")]) :=
  ⟨by decide, by decide,
    (create_request_body_roundtrip (cannedClient (okResponse infraBody)) (utf8 "Ops")
      (utf8 "ops-1") (by decide) (by decide)).1.2.1 _ rfl,
    (create_request_body_roundtrip (cannedClient (okResponse infraBody)) (utf8 "Ops")
      (utf8 "ops-1") (by decide) (by decide)).1.2.2.1,
    (create_request_body_roundtrip (cannedClient (okResponse infraBody)) (utf8 "Ops")
      (utf8 "ops-1") (by decide) (by decide)).2.2.2.1 _ rfl,
    (create_request_body_roundtrip (cannedClient (okResponse infraBody)) (utf8 "Ops")
      (utf8 "ops-1") (by decide) (by decide)).2.2.2.2.1⟩

/-- Counterexample to C7 as stated: for the name that is the single byte
`0xFF` (a Go string that is not valid UTF-8), `UpdateFolder("7", name)` sends
a PUT to `/api/folders/7` with the body `{"name":"\ufffd"}`, which maps
`"name"` to the replacement character U+FFFD (bytes `EF BF BD`) and not to the
name that was given. -/
theorem update_body_replaces_invalid_bytes :
    ((cannedClient (okResponse infraBody)).UpdateFolder "7" [0xFF]).sent =
      [⟨"PUT", "/api/folders/7", none, some "\x7b\"name\":\"\\ufffd\"\x7d"⟩] ∧
    parseJSON "\x7b\"name\":\"\\ufffd\"\x7d" =
      some (JSON.obj [("name", JSON.str (String.mk [replacementChar]))]) ∧
    utf8 (String.mk [replacementChar]) = [0xEF, 0xBF, 0xBD] ∧
    utf8 (String.mk [replacementChar]) ≠ [0xFF] ∧
    validUTF8 [0xFF] = false :=
  ⟨by decide, by rfl, by decide, by decide, by decide⟩

/-- C7, amended. For every id and every name that is valid UTF-8,
`UpdateFolder(id, name)` builds exactly one request, a PUT whose path is
`"/api/folders/" ++ id`, with no query, whose body is what `json.Marshal`
writes for the map with the one entry `name`; once the request is built it is
passed to the executor, it and no other; the body decodes to the object with
the single key `"name"` (no `"title"`) mapped to the text whose UTF-8 encoding
is `name`. For the name `"NewName"` the body is exactly
`{"name":"NewName"}`. -/
theorem update_request_shape {Req : Type} (c : Client Req) (id : String) (name : Bytes)
    (hname : validUTF8 name = true) :
    (c.UpdateFolder id name).built =
      [⟨"PUT", "/api/folders/" ++ id, none, some (marshalMap [(utf8 "name", name)])⟩] ∧
    (∀ req, c.newRequest
        ⟨"PUT", "/api/folders/" ++ id, none, some (marshalMap [(utf8 "name", name)])⟩ =
          Except.ok req → (c.UpdateFolder id name).sent = [req]) ∧
    parseJSON (marshalMap [(utf8 "name", name)]) =
      some (JSON.obj [("name", JSON.str (toValidUTF8 name))]) ∧
    utf8 (toValidUTF8 name) = name ∧
    marshalMap [(utf8 "name", utf8 "NewName")] = "\x7b\"name\":\"NewName\"\x7d" := by
  refine ⟨?_, ?_, ?_, utf8_toValidUTF8 name hname, by decide⟩
  · rw [UpdateFolder_eq]; exact roundTrip_built _ _ _ _
  · intro req hreq
    rw [UpdateFolder_eq]
    exact roundTrip_sent_of_built _ _ _ _ req hreq
  · rw [parseJSON_marshalMap]; rfl

/-- Witness of C7: `UpdateFolder("7", "NewName")` sends PUT `/api/folders/7`
with the body `{"name":"NewName"}`. -/
theorem update_request_shape_witness :
    validUTF8 (utf8 "NewName") = true ∧
    ((cannedClient (okResponse infraBody)).UpdateFolder "7" (utf8 "NewName")).built =
      [⟨"PUT", "/api/folders/7", none, some "\x7b\"name\":\"NewName\"\x7d"⟩] ∧
    ((cannedClient (okResponse infraBody)).UpdateFolder "7" (utf8 "NewName")).sent =
      [⟨"PUT", "/api/folders/7", none, some "\x7b\"name\":\"NewName\"\x7d"⟩] ∧
    parseJSON "\x7b\"name\":\"NewName\"\x7d" = some (JSON.obj [("name", JSON.str "NewName")]) :=
  ⟨by decide,
    (update_request_shape (cannedClient (okResponse infraBody)) "7" (utf8 "NewName")
      (by decide)).1,
    (update_request_shape (cannedClient (okResponse infraBody)) "7" (utf8 "NewName")
      (by decide)).2.1 _ rfl,
    (update_request_shape (cannedClient (okResponse infraBody)) "7" (utf8 "NewName")
      (by decide)).2.2.1⟩
/-! ## The fuel of the parser is enough -/

theorem skipSpace_length (cs : List Char) : (skipSpace cs).length ≤ cs.length := by
  induction cs with
  | nil => simp [skipSpace]
  | cons c cs ih =>
    simp only [skipSpace]
    split
    · simp only [List.length_cons]; omega
    · exact Nat.le_refl _

theorem takeDigits_length (cs : List Char) : (takeDigits cs).2.length ≤ cs.length := by
  induction cs with
  | nil => simp [takeDigits]
  | cons c cs ih =>
    simp only [takeDigits]
    split
    · simp only [List.length_cons]; omega
    · exact Nat.le_refl _

theorem scanExponent_length (cs lit rest : List Char) (h : scanExponent cs = some (lit, rest)) :
    rest.length ≤ cs.length := by
  unfold scanExponent at h
  split at h
  · simp at h; simp [h]
  · rename_i c r
    split at h
    · split at h
      · simp at h
      · rename_i s r2
        split at h
        · have := takeDigits_length r2
          split at h
          · simp at h
          · rename_i ds rest3 _ heq
            simp only [Option.some.injEq, Prod.mk.injEq] at h
            rw [heq] at this
            simp only [List.length_cons] at this ⊢
            rw [← h.2]; omega
        · have := takeDigits_length (s :: r2)
          split at h
          · simp at h
          · rename_i ds rest3 _ heq
            simp only [Option.some.injEq, Prod.mk.injEq] at h
            rw [heq] at this
            simp only [List.length_cons] at this ⊢
            rw [← h.2]; omega
    · simp only [Option.some.injEq, Prod.mk.injEq] at h
      rw [← h.2]

theorem scanFraction_length (cs lit rest : List Char) (h : scanFraction cs = some (lit, rest)) :
    rest.length ≤ cs.length := by
  unfold scanFraction at h
  split at h
  · simp at h; simp [h]
  · rename_i c r
    split at h
    · have hd := takeDigits_length r
      split at h
      · simp at h
      · rename_i ds rest2 _ heq
        rw [heq] at hd
        split at h
        · simp at h
        · rename_i ex rest3 hex
          have := scanExponent_length _ _ _ hex
          simp only [Option.some.injEq, Prod.mk.injEq] at h
          simp only [List.length_cons] at hd ⊢
          rw [← h.2]; omega
    · exact scanExponent_length _ _ _ h

theorem scanUnsigned_length (cs lit rest : List Char) (h : scanUnsigned cs = some (lit, rest)) :
    rest.length < cs.length := by
  unfold scanUnsigned at h
  split at h
  · simp at h
  · rename_i c r
    split at h
    · split at h
      · simp at h
      · rename_i tl rest2 heq
        have := scanFraction_length _ _ _ heq
        simp only [Option.some.injEq, Prod.mk.injEq] at h
        simp only [List.length_cons]
        rw [← h.2]; omega
    · split at h
      · split at h
        · simp at h
        · rename_i tl rest2 heq
          have := scanFraction_length _ _ _ heq
          have := takeDigits_length r
          simp only [Option.some.injEq, Prod.mk.injEq] at h
          simp only [List.length_cons]
          rw [← h.2]; omega
      · simp at h

theorem scanNumber_length (cs lit rest : List Char) (h : scanNumber cs = some (lit, rest)) :
    rest.length < cs.length := by
  unfold scanNumber at h
  split at h
  · simp at h
  · rename_i c r
    split at h
    · split at h
      · simp at h
      · rename_i l rest2 heq
        have := scanUnsigned_length _ _ _ heq
        simp only [Option.some.injEq, Prod.mk.injEq] at h
        simp only [List.length_cons]
        rw [← h.2]; omega
    · exact scanUnsigned_length _ _ _ h

theorem expectWord_length : ∀ (w cs rest : List Char), expectWord w cs = some rest →
    rest.length ≤ cs.length
  | [], cs, rest, h => by simp [expectWord] at h; simp [h]
  | _ :: _, [], rest, h => by simp [expectWord] at h
  | w :: ws, c :: cs, rest, h => by
    simp only [expectWord] at h
    split at h
    · have := expectWord_length ws cs rest h
      simp only [List.length_cons]; omega
    · simp at h

theorem readHex4_length (cs : List Char) (n : Nat) (rest : List Char)
    (h : readHex4 cs = some (n, rest)) : rest.length + 4 = cs.length := by
  unfold readHex4 at h
  split at h
  · split at h
    · simp only [Option.some.injEq, Prod.mk.injEq] at h
      simp only [List.length_cons]
      rw [← h.2]
    · simp at h
  · simp at h

theorem readLowSurrogate_length (cs : List Char) (n : Nat) (rest : List Char)
    (h : readLowSurrogate cs = some (n, rest)) : rest.length + 6 = cs.length := by
  unfold readLowSurrogate at h
  split at h
  · split at h
    · have := readHex4_length _ _ _ h
      simp only [List.length_cons]; omega
    · simp at h
  · simp at h

theorem readString_length (fuel : Nat) : ∀ (cs acc s rest : List Char),
    readString fuel cs acc = some (s, rest) → rest.length < cs.length := by
  induction fuel with
  | zero => intro cs acc s rest h; simp [readString] at h
  | succ fuel ih =>
    intro cs acc s rest h
    cases cs with
    | nil => simp [readString] at h
    | cons c r =>
      rw [readString.eq_def] at h
      simp only [] at h
      have hlen : (c :: r).length = r.length + 1 := rfl
      rw [hlen]
      by_cases h1 : c = dquote
      · simp only [h1, if_true, Option.some.injEq, Prod.mk.injEq] at h
        rw [← h.2]; omega
      · simp only [h1, if_false] at h
        by_cases h2 : c = bslash
        · simp only [h2, if_true] at h
          cases r with
          | nil => simp at h
          | cons e rest2 =>
            simp only [] at h
            have hlen2 : (e :: rest2).length = rest2.length + 1 := rfl
            rw [hlen2]
            by_cases e1 : e = dquote ∨ e = bslash ∨ e = '/'
            · simp only [e1, if_true] at h
              have := ih _ _ _ _ h; omega
            · simp only [e1, if_false] at h
              by_cases e2 : e = 'b'
              · simp only [e2, if_true] at h
                have := ih _ _ _ _ h; omega
              · simp only [e2, if_false] at h
                by_cases e3 : e = 'f'
                · simp only [e3, if_true] at h
                  have := ih _ _ _ _ h; omega
                · simp only [e3, if_false] at h
                  by_cases e4 : e = 'n'
                  · simp only [e4, if_true] at h
                    have := ih _ _ _ _ h; omega
                  · simp only [e4, if_false] at h
                    by_cases e5 : e = 'r'
                    · simp only [e5, if_true] at h
                      have := ih _ _ _ _ h; omega
                    · simp only [e5, if_false] at h
                      by_cases e6 : e = 't'
                      · simp only [e6, if_true] at h
                        have := ih _ _ _ _ h; omega
                      · simp only [e6, if_false] at h
                        by_cases e7 : e = 'u'
                        · simp only [e7, if_true] at h
                          cases hx : readHex4 rest2 with
                          | none => simp [hx] at h
                          | some p =>
                            obtain ⟨hi, rest3⟩ := p
                            have hx4 := readHex4_length _ _ _ hx
                            simp only [hx] at h
                            by_cases hs : isSurrogate hi = true
                            · simp only [hs, if_true] at h
                              cases hl : readLowSurrogate rest3 with
                              | none =>
                                simp only [hl] at h
                                have := ih _ _ _ _ h; omega
                              | some q =>
                                obtain ⟨lo, rest4⟩ := q
                                have hl6 := readLowSurrogate_length _ _ _ hl
                                simp only [hl] at h
                                by_cases hp : hi < 0xDC00 ∧ 0xDC00 ≤ lo ∧ lo < 0xE000
                                · simp only [hp, if_true] at h
                                  have := ih _ _ _ _ h; omega
                                · simp only [hp, if_false] at h
                                  have := ih _ _ _ _ h; omega
                            · simp only [hs, if_false] at h
                              have := ih _ _ _ _ h; omega
                        · simp [e7] at h
        · simp only [h2, if_false] at h
          by_cases h3 : c.toNat < 0x20
          · simp [h3] at h
          · simp only [h3, if_false] at h
            have := ih _ _ _ _ h; omega

theorem parseValue_fuel_step (n : Nat)
    (ihE : ∀ depth cs vs rest, parseElems n depth cs = some (vs, rest) →
      rest.length < cs.length ∧
        ∀ m, cs.length - rest.length ≤ m → parseElems m depth cs = some (vs, rest))
    (ihM : ∀ depth cs ms rest, parseMembers n depth cs = some (ms, rest) →
      rest.length < cs.length ∧
        ∀ m, cs.length - rest.length ≤ m → parseMembers m depth cs = some (ms, rest))
    (depth : Nat) (cs : List Char) (v : JSON) (rest : List Char)
    (h : parseValue (n + 1) depth cs = some (v, rest)) :
    rest.length < cs.length ∧
      ∀ m, cs.length - rest.length ≤ m → parseValue m depth cs = some (v, rest) := by
  rw [parseValue] at h
  have hsk := skipSpace_length cs
  cases hs : skipSpace cs with
  | nil => simp [hs] at h
  | cons c rest0 =>
    rw [hs] at h hsk
    simp only [List.length_cons] at hsk
    simp only [] at h
    by_cases hc1 : c = '{'
    · simp only [hc1, if_true] at h
      by_cases hdep : maxNestingDepth ≤ depth
      · simp [hdep] at h
      simp only [hdep, if_false] at h
      have hsk2 := skipSpace_length rest0
      cases hs2 : skipSpace rest0 with
      | nil => simp [hs2] at h
      | cons d rest2 =>
        rw [hs2] at h hsk2
        simp only [List.length_cons] at hsk2
        simp only [] at h
        by_cases hd : d = '}'
        · simp only [hd, if_true, Option.some.injEq, Prod.mk.injEq] at h
          obtain ⟨hv, hr⟩ := h
          subst hv hr
          refine ⟨by omega, ?_⟩
          intro m hm
          obtain ⟨m', rfl⟩ : ∃ m', m = m' + 1 := ⟨m - 1, by omega⟩
          rw [parseValue]
          simp only [hs, hc1, if_true, hs2, hd, hdep, if_false]
        · simp only [hd, if_false] at h
          cases hp : parseMembers n (depth + 1) (d :: rest2) with
          | none => simp [hp] at h
          | some r =>
            obtain ⟨ms, rest3⟩ := r
            simp only [hp, Option.some.injEq, Prod.mk.injEq] at h
            obtain ⟨hv, hr⟩ := h
            subst hv hr
            obtain ⟨hl, hfuel⟩ := ihM _ _ _ _ hp
            simp only [List.length_cons] at hl hfuel
            refine ⟨by omega, ?_⟩
            intro m hm
            obtain ⟨m', rfl⟩ : ∃ m', m = m' + 1 := ⟨m - 1, by omega⟩
            rw [parseValue]
            simp only [hs, hc1, if_true, hs2, hd, hdep, if_false, hfuel m' (by omega)]
    · simp only [hc1, if_false] at h
      by_cases hc2 : c = '['
      · subst hc2
        simp only [if_true] at h
        by_cases hdep : maxNestingDepth ≤ depth
        · simp [hdep] at h
        simp only [hdep, if_false] at h
        have hsk2 := skipSpace_length rest0
        cases hs2 : skipSpace rest0 with
        | nil => simp [hs2] at h
        | cons d rest2 =>
          rw [hs2] at h hsk2
          simp only [List.length_cons] at hsk2
          simp only [] at h
          by_cases hd : d = ']'
          · simp only [hd, if_true, Option.some.injEq, Prod.mk.injEq] at h
            obtain ⟨hv, hr⟩ := h
            subst hv hr
            refine ⟨by omega, ?_⟩
            intro m hm
            obtain ⟨m', rfl⟩ : ∃ m', m = m' + 1 := ⟨m - 1, by omega⟩
            rw [parseValue]
            simp only [hs, hc1, if_true, if_false, hs2, hd, hdep]
          · simp only [hd, if_false] at h
            cases hp : parseElems n (depth + 1) (d :: rest2) with
            | none => simp [hp] at h
            | some r =>
              obtain ⟨vs, rest3⟩ := r
              simp only [hp, Option.some.injEq, Prod.mk.injEq] at h
              obtain ⟨hv, hr⟩ := h
              subst hv hr
              obtain ⟨hl, hfuel⟩ := ihE _ _ _ _ hp
              simp only [List.length_cons] at hl hfuel
              refine ⟨by omega, ?_⟩
              intro m hm
              obtain ⟨m', rfl⟩ : ∃ m', m = m' + 1 := ⟨m - 1, by omega⟩
              rw [parseValue]
              simp only [hs, hc1, if_true, hs2, hd, hdep, if_false, hfuel m' (by omega)]
      · simp only [hc2, if_false] at h
        by_cases hc3 : c = dquote
        · subst hc3
          simp only [if_true] at h
          cases hp : readString rest0.length rest0 [] with
          | none => simp [hp] at h
          | some r =>
            obtain ⟨s, rest2⟩ := r
            have hl := readString_length _ _ _ _ _ hp
            simp only [hp, Option.some.injEq, Prod.mk.injEq] at h
            obtain ⟨hv, hr⟩ := h
            subst hv hr
            refine ⟨by omega, ?_⟩
            intro m hm
            obtain ⟨m', rfl⟩ : ∃ m', m = m' + 1 := ⟨m - 1, by omega⟩
            rw [parseValue]
            simp only [hs, hc1, hc2, if_true, if_false, hp]
        · simp only [hc3, if_false] at h
          by_cases hc4 : c = 't'
          · subst hc4
            simp only [if_true] at h
            cases hp : expectWord ['r', 'u', 'e'] rest0 with
            | none => simp [hp] at h
            | some rest2 =>
              have hl := expectWord_length _ _ _ hp
              simp only [hp, Option.some.injEq, Prod.mk.injEq] at h
              obtain ⟨hv, hr⟩ := h
              subst hv hr
              refine ⟨by omega, ?_⟩
              intro m hm
              obtain ⟨m', rfl⟩ : ∃ m', m = m' + 1 := ⟨m - 1, by omega⟩
              rw [parseValue]
              simp only [hs, hc1, hc2, hc3, if_true, if_false, hp]
          · simp only [hc4, if_false] at h
            by_cases hc5 : c = 'f'
            · subst hc5
              simp only [if_true] at h
              cases hp : expectWord ['a', 'l', 's', 'e'] rest0 with
              | none => simp [hp] at h
              | some rest2 =>
                have hl := expectWord_length _ _ _ hp
                simp only [hp, Option.some.injEq, Prod.mk.injEq] at h
                obtain ⟨hv, hr⟩ := h
                subst hv hr
                refine ⟨by omega, ?_⟩
                intro m hm
                obtain ⟨m', rfl⟩ : ∃ m', m = m' + 1 := ⟨m - 1, by omega⟩
                rw [parseValue]
                simp only [hs, hc1, hc2, hc3, hc4, if_true, if_false, hp]
            · simp only [hc5, if_false] at h
              by_cases hc6 : c = 'n'
              · subst hc6
                simp only [if_true] at h
                cases hp : expectWord ['u', 'l', 'l'] rest0 with
                | none => simp [hp] at h
                | some rest2 =>
                  have hl := expectWord_length _ _ _ hp
                  simp only [hp, Option.some.injEq, Prod.mk.injEq] at h
                  obtain ⟨hv, hr⟩ := h
                  subst hv hr
                  refine ⟨by omega, ?_⟩
                  intro m hm
                  obtain ⟨m', rfl⟩ : ∃ m', m = m' + 1 := ⟨m - 1, by omega⟩
                  rw [parseValue]
                  simp only [hs, hc1, hc2, hc3, hc4, hc5, if_true, if_false, hp]
              · simp only [hc6, if_false] at h
                cases hp : scanNumber (c :: rest0) with
                | none => simp [hp] at h
                | some r =>
                  obtain ⟨lit, rest2⟩ := r
                  have hl := scanNumber_length _ _ _ hp
                  simp only [List.length_cons] at hl
                  simp only [hp, Option.some.injEq, Prod.mk.injEq] at h
                  obtain ⟨hv, hr⟩ := h
                  subst hv hr
                  refine ⟨by omega, ?_⟩
                  intro m hm
                  obtain ⟨m', rfl⟩ : ∃ m', m = m' + 1 := ⟨m - 1, by omega⟩
                  rw [parseValue]
                  simp only [hs, hc1, hc2, hc3, hc4, hc5, hc6, if_false, hp]

theorem parseElems_fuel_step (n : Nat)
    (ihV : ∀ depth cs v rest, parseValue n depth cs = some (v, rest) →
      rest.length < cs.length ∧
        ∀ m, cs.length - rest.length ≤ m → parseValue m depth cs = some (v, rest))
    (ihE : ∀ depth cs vs rest, parseElems n depth cs = some (vs, rest) →
      rest.length < cs.length ∧
        ∀ m, cs.length - rest.length ≤ m → parseElems m depth cs = some (vs, rest))
    (depth : Nat) (cs : List Char) (vs : List JSON) (rest : List Char)
    (h : parseElems (n + 1) depth cs = some (vs, rest)) :
    rest.length < cs.length ∧
      ∀ m, cs.length - rest.length ≤ m → parseElems m depth cs = some (vs, rest) := by
  rw [parseElems] at h
  cases hp : parseValue n depth cs with
  | none => simp [hp] at h
  | some r =>
    obtain ⟨v, rest1⟩ := r
    obtain ⟨hl, hfuel⟩ := ihV _ _ _ _ hp
    simp only [hp] at h
    have hsk := skipSpace_length rest1
    cases hs : skipSpace rest1 with
    | nil => simp [hs] at h
    | cons c rest2 =>
      rw [hs] at h hsk
      simp only [List.length_cons] at hsk
      simp only [] at h
      by_cases hc : c = ','
      · subst hc
        simp only [if_true] at h
        cases hq : parseElems n depth rest2 with
        | none => simp [hq] at h
        | some r2 =>
          obtain ⟨ws, rest3⟩ := r2
          obtain ⟨hl2, hfuel2⟩ := ihE _ _ _ _ hq
          simp only [hq, Option.some.injEq, Prod.mk.injEq] at h
          obtain ⟨hv, hr⟩ := h
          subst hv hr
          refine ⟨by omega, ?_⟩
          intro m hm
          obtain ⟨m', rfl⟩ : ∃ m', m = m' + 1 := ⟨m - 1, by omega⟩
          rw [parseElems]
          simp only [hfuel m' (by omega), hs, if_true, hfuel2 m' (by omega)]
      · simp only [hc, if_false] at h
        by_cases hd : c = ']'
        · subst hd
          simp only [if_true, Option.some.injEq, Prod.mk.injEq] at h
          obtain ⟨hv, hr⟩ := h
          subst hv hr
          refine ⟨by omega, ?_⟩
          intro m hm
          obtain ⟨m', rfl⟩ : ∃ m', m = m' + 1 := ⟨m - 1, by omega⟩
          rw [parseElems]
          simp only [hfuel m' (by omega), hs, hc, if_true, if_false]
        · simp [hd] at h

theorem parseMembers_fuel_step (n : Nat)
    (ihV : ∀ depth cs v rest, parseValue n depth cs = some (v, rest) →
      rest.length < cs.length ∧
        ∀ m, cs.length - rest.length ≤ m → parseValue m depth cs = some (v, rest))
    (ihM : ∀ depth cs ms rest, parseMembers n depth cs = some (ms, rest) →
      rest.length < cs.length ∧
        ∀ m, cs.length - rest.length ≤ m → parseMembers m depth cs = some (ms, rest))
    (depth : Nat) (cs : List Char) (ms : List (String × JSON)) (rest : List Char)
    (h : parseMembers (n + 1) depth cs = some (ms, rest)) :
    rest.length < cs.length ∧
      ∀ m, cs.length - rest.length ≤ m → parseMembers m depth cs = some (ms, rest) := by
  rw [parseMembers] at h
  have hsk := skipSpace_length cs
  cases hs : skipSpace cs with
  | nil => simp [hs] at h
  | cons q rest0 =>
    rw [hs] at h hsk
    simp only [List.length_cons] at hsk
    simp only [] at h
    by_cases hq : q = dquote
    · subst hq
      simp only [if_true] at h
      cases hk : readString rest0.length rest0 [] with
      | none => simp [hk] at h
      | some r =>
        obtain ⟨k, rest2⟩ := r
        have hlk := readString_length _ _ _ _ _ hk
        simp only [hk] at h
        have hsk2 := skipSpace_length rest2
        cases hs2 : skipSpace rest2 with
        | nil => simp [hs2] at h
        | cons colon rest3 =>
          rw [hs2] at h hsk2
          simp only [List.length_cons] at hsk2
          simp only [] at h
          by_cases hcol : colon = ':'
          · subst hcol
            simp only [if_true] at h
            cases hp : parseValue n depth rest3 with
            | none => simp [hp] at h
            | some r2 =>
              obtain ⟨v, rest4⟩ := r2
              obtain ⟨hl, hfuel⟩ := ihV _ _ _ _ hp
              simp only [hp] at h
              have hsk3 := skipSpace_length rest4
              cases hs3 : skipSpace rest4 with
              | nil => simp [hs3] at h
              | cons c rest5 =>
                rw [hs3] at h hsk3
                simp only [List.length_cons] at hsk3
                simp only [] at h
                by_cases hc : c = ','
                · subst hc
                  simp only [if_true] at h
                  cases hm : parseMembers n depth rest5 with
                  | none => simp [hm] at h
                  | some r3 =>
                    obtain ⟨ms2, rest6⟩ := r3
                    obtain ⟨hl2, hfuel2⟩ := ihM _ _ _ _ hm
                    simp only [hm, Option.some.injEq, Prod.mk.injEq] at h
                    obtain ⟨hv, hr⟩ := h
                    subst hv hr
                    refine ⟨by omega, ?_⟩
                    intro m hm'
                    obtain ⟨m', rfl⟩ : ∃ m', m = m' + 1 := ⟨m - 1, by omega⟩
                    rw [parseMembers]
                    simp only [hs, if_true, hk, hs2, hfuel m' (by omega), hs3,
                      hfuel2 m' (by omega)]
                · simp only [hc, if_false] at h
                  by_cases hd : c = '}'
                  · subst hd
                    simp only [if_true, Option.some.injEq, Prod.mk.injEq] at h
                    obtain ⟨hv, hr⟩ := h
                    subst hv hr
                    refine ⟨by omega, ?_⟩
                    intro m hm'
                    obtain ⟨m', rfl⟩ : ∃ m', m = m' + 1 := ⟨m - 1, by omega⟩
                    rw [parseMembers]
                    simp only [hs, if_true, hk, hs2, hfuel m' (by omega), hs3, hc, if_false]
                  · simp [hd] at h
          · simp [hcol] at h
    · simp [hq] at h

/-- Fuel that lets a parse succeed can be replaced by any amount that is at
least the number of characters the parse consumes. -/
theorem parse_fuel (n : Nat) :
    (∀ depth cs v rest, parseValue n depth cs = some (v, rest) →
      rest.length < cs.length ∧
        ∀ m, cs.length - rest.length ≤ m → parseValue m depth cs = some (v, rest)) ∧
    (∀ depth cs vs rest, parseElems n depth cs = some (vs, rest) →
      rest.length < cs.length ∧
        ∀ m, cs.length - rest.length ≤ m → parseElems m depth cs = some (vs, rest)) ∧
    (∀ depth cs ms rest, parseMembers n depth cs = some (ms, rest) →
      rest.length < cs.length ∧
        ∀ m, cs.length - rest.length ≤ m → parseMembers m depth cs = some (ms, rest)) := by
  induction n with
  | zero =>
    refine ⟨?_, ?_, ?_⟩
    · intro depth cs v rest h; simp [parseValue] at h
    · intro depth cs vs rest h; simp [parseElems] at h
    · intro depth cs ms rest h; simp [parseMembers] at h
  | succ n ih =>
    obtain ⟨ihV, ihE, ihM⟩ := ih
    exact ⟨parseValue_fuel_step n ihE ihM, parseElems_fuel_step n ihV ihE,
      parseMembers_fuel_step n ihV ihM⟩

/-- The fuel `parseJSON` uses is enough: a text that parses with some amount
of fuel parses with the amount `parseJSON` takes, to the same value. Hence
`parseJSON data = none` means that no amount of fuel makes `data` parse. -/
theorem parseJSON_of_fuel (data : String) (n : Nat) (v : JSON) (rest : List Char)
    (h : parseValue n 0 data.data = some (v, rest)) (hrest : skipSpace rest = []) :
    parseJSON data = some v := by
  obtain ⟨_, hfuel⟩ := (parse_fuel n).1 _ _ _ _ h
  have hm : data.data.length - rest.length ≤ data.length + 1 := by
    have : data.length = data.data.length := rfl
    omega
  simp [parseJSON, hfuel _ hm, hrest]

/-- The nesting limit: a text that opens arrays beyond `maxNestingDepth` is
rejected, whatever follows and whatever the fuel. -/
theorem parseValue_too_deep : ∀ (k fuel depth : Nat) (rest : List Char),
    maxNestingDepth < depth + (k + 1) →
    parseValue fuel depth (List.replicate (k + 1) '[' ++ rest) = none := by
  have hsp : isSpace '[' = false := by decide
  have h1 : '[' ≠ '{' := by decide
  have h2 : '[' ≠ ']' := by decide
  intro k
  induction k with
  | zero =>
    intro fuel depth rest hd
    cases fuel with
    | zero => simp [parseValue]
    | succ f =>
      have hdep : maxNestingDepth ≤ depth := by omega
      rw [parseValue]
      simp [List.replicate, skipSpace, hsp, h1, hdep]
  | succ k ih =>
    intro fuel depth rest hd
    cases fuel with
    | zero => simp [parseValue]
    | succ f =>
      rw [parseValue]
      by_cases hdep : maxNestingDepth ≤ depth
      · simp [List.replicate, skipSpace, hsp, h1, hdep]
      · have hin : parseElems f (depth + 1) (List.replicate (k + 1) '[' ++ rest) = none := by
          cases f with
          | zero => simp [parseElems]
          | succ g =>
            rw [parseElems, ih g (depth + 1) rest (by omega)]
        have hrep : List.replicate (k + 1 + 1) '[' ++ rest =
            '[' :: '[' :: (List.replicate k '[' ++ rest) := rfl
        have hrep2 : List.replicate (k + 1) '[' ++ rest =
            '[' :: (List.replicate k '[' ++ rest) := rfl
        rw [hrep2] at hin
        rw [hrep]
        simp only [skipSpace, hsp, h1, h2, hdep, if_false, if_true, hin, Bool.false_eq_true]

/-- A body nested deeper than `maxNestingDepth` is not valid for
`json.Unmarshal`: `parseJSON` rejects it. -/
theorem parseJSON_too_deep (n : Nat) (rest : List Char) (h : maxNestingDepth < n) :
    parseJSON (String.mk (List.replicate n '[' ++ rest)) = none := by
  obtain ⟨k, rfl⟩ : ∃ k, n = k + 1 := ⟨n - 1, by omega⟩
  simp [parseJSON, parseValue_too_deep k _ 0 rest (by omega)]
end Gapi
